import Mathlib

/-!
# Validation library (`pkg/validations/validations.go`)

A shallow embedding of the validators of `pkg/validations/validations.go`.

Go strings are modelled by Lean strings (sequences of code points); `len` is the
UTF-8 byte length, as in Go.  The validators are driven by regular expressions
handed to Go's `regexp` package as pattern text.  The pattern constants are kept
verbatim; a small compiler for the fragment of the RE2 syntax they use turns
them into a regular-expression tree, and a derivative matcher decides whether
the text contains a match.
-/

namespace Validations

/-! ## Regular expressions -/

/-- Regular-expression trees.  A character class is a list of inclusive code
point ranges, possibly negated. -/
inductive Regex where
  | nothing
  | empty
  | cls (neg : Bool) (ranges : List (Nat × Nat))
  | cat (a b : Regex)
  | alt (a b : Regex)
  | star (a : Regex)
  deriving DecidableEq, Repr

namespace Regex

/-- Membership of a character in a list of inclusive code point ranges. -/
def inRanges (ranges : List (Nat × Nat)) (c : Char) : Bool :=
  ranges.any fun r => decide (r.1 ≤ c.toNat) && decide (c.toNat ≤ r.2)

/-- Membership of a character in a (possibly negated) class. -/
def classMem (neg : Bool) (ranges : List (Nat × Nat)) (c : Char) : Bool :=
  if neg then !inRanges ranges c else inRanges ranges c

/-- The literal character `c`. -/
def lit (c : Char) : Regex := cls false [(c.toNat, c.toNat)]

/-- The dot: any character but the newline (the `s` flag is off). -/
def dot : Regex := cls true [(10, 10)]

/-- Any character at all, the newline included. -/
def anyChar : Regex := cls true []

/-- Ranges of the Perl class `\d`. -/
def digitRanges : List (Nat × Nat) := [(48, 57)]

/-- Ranges of the Perl class `\w`. -/
def wordRanges : List (Nat × Nat) := [(48, 57), (65, 90), (95, 95), (97, 122)]

/-- Ranges of the Perl class `\s`. -/
def spaceRanges : List (Nat × Nat) := [(9, 10), (12, 13), (32, 32)]

/-- One or more: `r+`. -/
def plus (r : Regex) : Regex := cat r (star r)

/-- Zero or one: `r?`. -/
def opt (r : Regex) : Regex := alt r empty

/-- At most `k` copies of `r`, as nested optional groups. -/
def upTo (r : Regex) : Nat → Regex
  | 0 => empty
  | k + 1 => opt (cat r (upTo r k))

/-- Exactly `m` copies of `r` followed by `tail`. -/
def copies (r : Regex) : Nat → Regex → Regex
  | 0, tail => tail
  | m + 1, tail => cat r (copies r m tail)

/-- Counted repetition `r{m,n}` (`n = none` for `r{m,}`). -/
def repeatRange (r : Regex) (m : Nat) : Option Nat → Regex
  | none => copies r m (star r)
  | some n => copies r m (upTo r (n - m))

/-- Concatenation of a list of items. -/
def catAll : List Regex → Regex
  | [] => empty
  | [r] => r
  | r :: rs => cat r (catAll rs)

/-- Alternation of a list of branches. -/
def altAll : List Regex → Regex
  | [] => nothing
  | [r] => r
  | r :: rs => alt r (altAll rs)

/-- Does the expression accept the empty word? -/
def nullable : Regex → Bool
  | nothing => false
  | empty => true
  | cls _ _ => false
  | cat a b => nullable a && nullable b
  | alt a b => nullable a || nullable b
  | star _ => true

/-- Brzozowski derivative with respect to one character. -/
def deriv : Regex → Char → Regex
  | nothing, _ => nothing
  | empty, _ => nothing
  | cls neg ranges, c => if classMem neg ranges c then empty else nothing
  | cat a b, c =>
      if nullable a then alt (cat (deriv a c) b) (deriv b c) else cat (deriv a c) b
  | alt a b, c => alt (deriv a c) (deriv b c)
  | star a, c => cat (deriv a c) (star a)

/-- Whole-word matching by iterated derivatives. -/
def rmatch : Regex → List Char → Bool
  | r, [] => nullable r
  | r, c :: cs => rmatch (deriv r c) cs

end Regex

/-! ## Compiling pattern text -/

/-- A compiled pattern: the body with the two text anchors factored out. -/
structure Regexp where
  bol : Bool
  eol : Bool
  body : Regex
  deriving DecidableEq, Repr

namespace Syntax

open Regex

/-- ASCII punctuation: characters below 128 that are neither letters nor digits. -/
def isPunct (c : Char) : Bool :=
  decide (c.toNat < 128) && !(c.isAlphanum)

/-- The Perl classes `\d`, `\w` and `\s`. -/
def perlClass (c : Char) : Option (List (Nat × Nat)) :=
  if c = 'd' then some digitRanges
  else if c = 'w' then some wordRanges
  else if c = 's' then some spaceRanges
  else none

/-- The character an escape `\c` stands for: escaped punctuation is itself. -/
def escapeChar (c : Char) : Option Char :=
  if isPunct c then some c
  else if c = 'n' then some '\n'
  else if c = 't' then some '\t'
  else if c = 'r' then some '\r'
  else none

/-- One character of a class, possibly escaped. -/
def parseClassChar : List Char → Option (Char × List Char)
  | [] => none
  | '\\' :: c :: rest => (escapeChar c).map fun x => (x, rest)
  | '\\' :: [] => none
  | c :: rest => some (c, rest)

/-- The items of a bracketed class up to the closing bracket.  An item is a
Perl class, a single character, or a range `lo-hi`; a hyphen that is followed
by the closing bracket is a plain hyphen. -/
def parseClassItems : Nat → List Char → List (Nat × Nat) → Option (List (Nat × Nat) × List Char)
  | 0, _, _ => none
  | _ + 1, [], _ => none
  | _ + 1, ']' :: rest, acc => some (acc, rest)
  | _ + 1, '[' :: ':' :: _, _ => none
  | fuel + 1, '\\' :: c :: rest, acc =>
      match perlClass c with
      | some rs => parseClassItems fuel rest (acc ++ rs)
      | none =>
        match escapeChar c with
        | none => none
        | some lo =>
          match rest with
          | '-' :: d :: rest2 =>
              if d = ']' then parseClassItems fuel rest (acc ++ [(lo.toNat, lo.toNat)])
              else
                match parseClassChar (d :: rest2) with
                | none => none
                | some (hi, rest3) =>
                    if hi.toNat < lo.toNat then none
                    else parseClassItems fuel rest3 (acc ++ [(lo.toNat, hi.toNat)])
          | _ => parseClassItems fuel rest (acc ++ [(lo.toNat, lo.toNat)])
  | fuel + 1, lo :: rest, acc =>
      if lo = '\\' then none
      else
        match rest with
        | '-' :: d :: rest2 =>
            if d = ']' then parseClassItems fuel rest (acc ++ [(lo.toNat, lo.toNat)])
            else
              match parseClassChar (d :: rest2) with
              | none => none
              | some (hi, rest3) =>
                  if hi.toNat < lo.toNat then none
                  else parseClassItems fuel rest3 (acc ++ [(lo.toNat, hi.toNat)])
        | _ => parseClassItems fuel rest (acc ++ [(lo.toNat, lo.toNat)])

/-- A bracketed class, the opening bracket already consumed. -/
def parseClass (input : List Char) : Option (Regex × List Char) :=
  let neg := match input with
    | '^' :: _ => true
    | _ => false
  let items := if neg then input.drop 1 else input
  match items with
  | ']' :: _ => none
  | _ => (parseClassItems (items.length + 1) items []).map fun p => (cls neg p.1, p.2)

/-- A decimal number: its value and the rest of the input. -/
def parseNat : List Char → Option Nat → Option Nat × List Char
  | [], acc => (acc, [])
  | c :: rest, acc =>
      if c.isDigit then parseNat rest (some (acc.getD 0 * 10 + (c.toNat - 48)))
      else (acc, c :: rest)

/-- The bounds of a counted repetition, the opening brace already consumed:
`n}`, `n,}` or `n,m}`. -/
def parseRepeat (input : List Char) : Option (Nat × Option Nat × List Char) :=
  match parseNat input none with
  | (some n, '}' :: rest) => some (n, some n, rest)
  | (some n, ',' :: '}' :: rest) => some (n, none, rest)
  | (some n, ',' :: rest) =>
      match parseNat rest none with
      | (some m, '}' :: rest2) => some (n, some m, rest2)
      | _ => none
  | _ => none

/-- Is a repetition operator next? -/
def startsWithRepetition (input : List Char) : Bool :=
  match input with
  | '*' :: _ => true
  | '+' :: _ => true
  | '?' :: _ => true
  | '{' :: rest => (parseRepeat rest).isSome
  | _ => false

/-- Skips the non-greedy marker (it does not change whether a match exists) and
refuses a second repetition operator. -/
def afterRepetition (r : Regex) (input : List Char) : Option (Regex × List Char) :=
  let rest := match input with
    | '?' :: rest => rest
    | _ => input
  if startsWithRepetition rest then none else some (r, rest)

/-- An optional repetition operator applied to the item `r` just parsed. -/
def parseQuant (r : Regex) (input : List Char) : Option (Regex × List Char) :=
  match input with
  | '*' :: rest => afterRepetition (star r) rest
  | '+' :: rest => afterRepetition (plus r) rest
  | '?' :: rest => afterRepetition (opt r) rest
  | '{' :: rest =>
      match parseRepeat rest with
      | none => some (r, input)
      | some (n, none, rest2) =>
          if 1000 < n then none else afterRepetition (repeatRange r n none) rest2
      | some (n, some m, rest2) =>
          if 1000 < n ∨ 1000 < m ∨ m < n then none
          else afterRepetition (repeatRange r n (some m)) rest2
  | _ => some (r, input)

/-- The alternation of the finished branches `alts` (latest first) and the
current branch `items` (latest first). -/
def finish (alts items : List Regex) : Regex :=
  altAll ((catAll items.reverse :: alts).reverse)

/-- An alternation of concatenations of repeated items, read up to the end of
the input, a closing parenthesis or a dollar sign, which is left in the input. -/
def parseRegex : Nat → List Char → List Regex → List Regex → Option (Regex × List Char)
  | 0, _, _, _ => none
  | _ + 1, [], alts, items => some (finish alts items, [])
  | fuel + 1, c :: rest, alts, items =>
      if c = ')' ∨ c = '$' then some (finish alts items, c :: rest)
      else if c = '|' then parseRegex fuel rest (catAll items.reverse :: alts) []
      else if c = '(' then
        match rest with
        | '?' :: _ => none
        | _ =>
          match parseRegex fuel rest [] [] with
          | some (r, ')' :: rest2) =>
              match parseQuant r rest2 with
              | some (q, rest3) => parseRegex fuel rest3 alts (q :: items)
              | none => none
          | _ => none
      else if c = '[' then
        match parseClass rest with
        | some (r, rest2) =>
            match parseQuant r rest2 with
            | some (q, rest3) => parseRegex fuel rest3 alts (q :: items)
            | none => none
        | none => none
      else if c = '\\' then
        match rest with
        | [] => none
        | e :: rest2 =>
            let atom : Option Regex :=
              match perlClass e with
              | some rs => some (cls false rs)
              | none => (escapeChar e).map lit
            match atom with
            | none => none
            | some r =>
                match parseQuant r rest2 with
                | some (q, rest3) => parseRegex fuel rest3 alts (q :: items)
                | none => none
      else if c = '^' ∨ c = '*' ∨ c = '+' ∨ c = '?' then none
      else if c = '{' ∧ (parseRepeat rest).isSome then none
      else
        match parseQuant (if c = '.' then dot else lit c) rest with
        | some (q, rest3) => parseRegex fuel rest3 alts (q :: items)
        | none => none

/-- Compiles pattern text.  A caret is accepted at the very start of the pattern
and a dollar sign at its very end (both mean the start and the end of the
text, the multi-line flag being off); patterns outside the fragment are
refused. -/
def compile (pattern : String) : Option Regexp :=
  let bol := match pattern.data with
    | '^' :: _ => true
    | _ => false
  let body := if bol then pattern.data.drop 1 else pattern.data
  match parseRegex (body.length + 1) body [] [] with
  | some (r, []) => some ⟨bol, false, r⟩
  | some (r, ['$']) => some ⟨bol, true, r⟩
  | _ => none

end Syntax

/-- The expression a text must match as a whole for the pattern to have a match
somewhere in it: without an anchor, anything may precede or follow the match. -/
def Regexp.full (re : Regexp) : Regex :=
  Regex.cat (if re.bol then Regex.empty else Regex.star Regex.anyChar)
    (Regex.cat re.body (if re.eol then Regex.empty else Regex.star Regex.anyChar))

/-- Method `(*Regexp).MatchString`: does the text contain a match? -/
def Regexp.MatchString (re : Regexp) (s : String) : Bool :=
  Regex.rmatch re.full s.data

/-! ## Errors and the `regexp` entry points -/

/-- Go error values: a formatted message (`fmt.Errorf`, `errors.Errorf`), a
wrapped cause (`errors.Wrapf`), or the syntax error of `regexp`. -/
inductive GoError where
  | errorf (text : String)
  | wrapf (cause : GoError) (text : String)
  | regexpSyntax (pattern : String)
  deriving DecidableEq, Repr

/-- A run-time panic; the only source is `regexp.MustCompile`. -/
inductive Panic where
  | mustCompile (pattern : String)
  deriving DecidableEq, Repr

deriving instance DecidableEq for Except

namespace regexp

/-- Function `regexp.Compile`. -/
def Compile (pattern : String) : Except GoError Regexp :=
  match Syntax.compile pattern with
  | some re => .ok re
  | none => .error (.regexpSyntax pattern)

/-- Function `regexp.MustCompile`: panics where `Compile` fails. -/
def MustCompile (pattern : String) : Except Panic Regexp :=
  match Syntax.compile pattern with
  | some re => .ok re
  | none => .error (.mustCompile pattern)

/-- Function `regexp.MatchString(pattern, s)`. -/
def MatchString (pattern : String) (s : String) : Except GoError Bool :=
  match Compile pattern with
  | .ok re => .ok (re.MatchString s)
  | .error e => .error e

end regexp

/-! ## String helpers -/

/-- Builtin `len` on a string: its number of bytes. -/
def len (s : String) : Nat := s.utf8ByteSize

namespace strings

/-- Function `strings.TrimPrefix`. -/
def TrimPrefix (s p : String) : String :=
  if p.data.isPrefixOf s.data then ⟨s.data.drop p.data.length⟩ else s

/-- Function `strings.TrimSuffix`. -/
def TrimSuffix (s suffix : String) : String :=
  if suffix.data.isSuffixOf s.data then ⟨s.data.take (s.data.length - suffix.data.length)⟩ else s

end strings

/-- Verb `%v` applied to a slice of strings. -/
def formatStrings (xs : List String) : String :=
  "[" ++ " ".intercalate xs ++ "]"

/-- Function `funk.ContainsString`. -/
def ContainsString (xs : List String) (x : String) : Bool :=
  xs.any fun y => decide (y = x)

/-! ## The validators -/

def baseDomainRegex : String := "^[a-z\\d]([\\-]*[a-z\\d]+)+$"

def dnsNameRegex : String := "^([a-z\\d]([\\-]*[a-z\\d]+)*\\.)+[a-z\\d]+([\\-]*[a-z\\d]+)+$"

def wildCardDomainRegex : String := "^(validateNoWildcardDNS\\.).+\\.?$"

def hostnameRegex : String := "^[a-z0-9][a-z0-9\\-\\.]\x7b0,61\x7d[a-z0-9]$"

def installerArgsValuesRegex : String := "^[A-Za-z0-9@!#$%*()_+-=//.,\";':\x7b\x7d\\[\\]]+$"

def allowedFlags : List String :=
  ["--append-karg", "--delete-karg", "-n", "--copy-network", "--network-dir",
   "--save-partlabel", "--save-partindex", "--image-url", "--image-file"]

def StatusBadRequest : Int := 400

def StatusInternalServerError : Int := 500

/-- The error of `ValidateInstallerArgs` for a flag outside the allow-list. -/
def unexpectedFlagError (arg : String) : GoError :=
  .errorf ("found unexpected flag " ++ arg ++ " for installer - allowed flags are "
    ++ formatStrings allowedFlags)

/-- The error of `ValidateInstallerArgs` for a value with a character outside the class. -/
def unexpectedCharsError (arg : String) : GoError :=
  .errorf ("found unexpected chars in value " ++ arg ++ " for installer")

/-- The loop of `ValidateInstallerArgs` over the arguments. -/
def ValidateInstallerArgs.loop (argsRe valuesRe : Regexp) : List String → Option GoError
  | [] => none
  | arg :: rest =>
      if argsRe.MatchString arg then
        if !ContainsString allowedFlags arg then some (unexpectedFlagError arg)
        else ValidateInstallerArgs.loop argsRe valuesRe rest
      else if !valuesRe.MatchString arg then some (unexpectedCharsError arg)
      else ValidateInstallerArgs.loop argsRe valuesRe rest

def ValidateInstallerArgs (args : List String) : Except Panic (Option GoError) :=
  match regexp.MustCompile "^-+.*" with
  | .error p => .error p
  | .ok argsRe =>
    match regexp.MustCompile installerArgsValuesRegex with
    | .error p => .error p
    | .ok valuesRe => .ok (ValidateInstallerArgs.loop argsRe valuesRe args)

/-- RFC 1123 states that domains cannot resemble the format ##.##.##.## -/
def isDottedDecimalDomain (domain : String) : Except Panic Bool :=
  match regexp.MustCompile "([\\d]+\\.)\x7b3\x7d[\\d]+" with
  | .error p => .error p
  | .ok re => .ok (re.MatchString domain)

/-- The rejection of `ValidateDomainNameFormat`. -/
def dnsFormatMismatch (dnsDomainName : String) : GoError :=
  .errorf ("DNS format mismatch: " ++ dnsDomainName
    ++ " domain name is not valid. Must match regex [" ++ dnsNameRegex
    ++ "], be no more than 255 characters, and not be in dotted decimal format (##.##.##.##)")

def ValidateDomainNameFormat (dnsDomainName : String) : Except Panic (Int × Option GoError) :=
  let domainName :=
    match regexp.MatchString wildCardDomainRegex dnsDomainName with
    | .ok true =>
        strings.TrimSuffix (strings.TrimPrefix dnsDomainName "validateNoWildcardDNS.") "."
    | _ => dnsDomainName
  match regexp.MatchString baseDomainRegex domainName with
  | .error err =>
      .ok (StatusInternalServerError,
        some (.wrapf err ("Single DNS base domain validation for " ++ dnsDomainName)))
  | .ok matched =>
    if matched && decide (len domainName > 1) && decide (len domainName < 63) then
      .ok (0, none)
    else
      match regexp.MatchString dnsNameRegex domainName with
      | .error err =>
          .ok (StatusInternalServerError,
            some (.wrapf err ("DNS name validation for " ++ dnsDomainName)))
      | .ok matched =>
        if !matched then .ok (StatusBadRequest, some (dnsFormatMismatch dnsDomainName))
        else
          match isDottedDecimalDomain domainName with
          | .error p => .error p
          | .ok dotted =>
            if dotted || decide (len domainName > 255) then
              .ok (StatusBadRequest, some (dnsFormatMismatch dnsDomainName))
            else .ok (0, none)

/-- The rejection of `ValidateHostname`. -/
def hostnameFormatMismatch (name : String) : GoError :=
  .errorf ("Hostname format mismatch: " ++ name ++ " name is not valid.\n"
    ++ "\t\t\tHostname must have a maximum length of 64 characters,\n"
    ++ "\t\t\tstart and end with a lowercase alphanumerical character,\n"
    ++ "\t\t\tand can only contain lowercase alphanumerical characters, dashes, and periods.")

def ValidateHostname (name : String) : Option GoError :=
  match regexp.MatchString hostnameRegex name with
  | .error err => some (.wrapf err ("Hostname validation for " ++ name))
  | .ok matched =>
    if !matched then some (hostnameFormatMismatch name) else none

/-! ## Splitting and the packages outside the repository -/

namespace strings

/-- The scan of `strings.Split` for a non-empty separator: `cur` holds the
current piece in reverse, `skip` the characters of a separator just found that
are still to be passed over. -/
def Split.go (sep : List Char) : List Char → Nat → List Char → List (List Char)
  | [], _, cur => [cur.reverse]
  | _ :: cs, skip + 1, cur => Split.go sep cs skip cur
  | c :: cs, 0, cur =>
      if sep.isPrefixOf (c :: cs) then cur.reverse :: Split.go sep cs (sep.length - 1) []
      else Split.go sep cs 0 (c :: cur)

/-- Function `strings.Split`: the pieces of `s` between the occurrences of
`sep`; with an empty separator, the characters of `s`. -/
def Split (s sep : String) : List String :=
  if sep.data = [] then s.data.map fun c => String.mk [c]
  else (Split.go sep.data s.data 0 []).map String.mk

end strings

/-- A parsed URL; of the fields of `url.URL` the validators read `Scheme` only. -/
structure URL where
  Scheme : String
  deriving DecidableEq, Repr

/-- The functions of the packages `net`, `net/url` and `govalidator` that the
validators call.  They are not part of the repository and are taken as given:
`ParseIP` is `net.ParseIP` (`none` for `nil`), `Parse` is `url.Parse`, the other
four are the predicates of `govalidator`. -/
structure Library where
  ParseIP : String → Option (List Nat)
  Parse : String → Except GoError URL
  IsURL : String → Bool
  IsIP : String → Bool
  IsCIDR : String → Bool
  IsDNSName : String → Bool

/-! ## The validators over lists, URLs and tags -/

/-- Function `AllStrings`.  The predicate is a Go function and may panic, as
`IsValidTag` may. -/
def AllStrings (vs : List String) (f : String → Except Panic Bool) : Except Panic Bool :=
  match vs with
  | [] => .ok true
  | v :: rest =>
      match f v with
      | .error p => .error p
      | .ok ok => if !ok then .ok false else AllStrings rest f

def ValidateNTPSource (lib : Library) (ntpSource : String) : Bool :=
  match lib.ParseIP ntpSource with
  | some _ => true
  | none =>
      match ValidateHostname ntpSource with
      | none => true
      | some _ => false

def ValidateAdditionalNTPSource (lib : Library) (commaSeparatedNTPSources : String) :
    Except Panic Bool :=
  AllStrings (strings.Split commaSeparatedNTPSources ",")
    fun v => .ok (ValidateNTPSource lib v)

/-- The error of `ValidateHTTPFormat` for a URL that does not parse; the verb
`%w` wraps the cause and renders it after a colon. -/
def urlFormatError (theurl : String) (err : GoError) : GoError :=
  .wrapf err ("URL '" ++ theurl ++ "' format is not valid")

/-- The error of `ValidateHTTPFormat` for a scheme other than http and https. -/
def urlSchemeError (theurl : String) : GoError :=
  .errorf ("The URL scheme must be http(s) and specified in the URL: '" ++ theurl ++ "'")

/-- ValidateHTTPFormat validates the HTTP and HTTPS format -/
def ValidateHTTPFormat (lib : Library) (theurl : String) : Option GoError :=
  match lib.Parse theurl with
  | .error err => some (urlFormatError theurl err)
  | .ok u =>
      if !(u.Scheme == "http" || u.Scheme == "https") then some (urlSchemeError theurl)
      else none

/-- The error of `ValidateHTTPProxyFormat` for a text that is no URL. -/
def proxyFormatError (proxyURL : String) : GoError :=
  .errorf ("Proxy URL format is not valid: '" ++ proxyURL ++ "'")

/-- The error of `ValidateHTTPProxyFormat` for the scheme https. -/
def proxyHTTPSError (proxyURL : String) : GoError :=
  .errorf ("The URL scheme must be http; https is currently not supported: '"
    ++ proxyURL ++ "'")

/-- The error of `ValidateHTTPProxyFormat` for a scheme other than http and https. -/
def proxySchemeError (proxyURL : String) : GoError :=
  .errorf ("The URL scheme must be http and specified in the URL: '" ++ proxyURL ++ "'")

/-- ValidateHTTPProxyFormat validates the HTTP Proxy and HTTPS Proxy format -/
def ValidateHTTPProxyFormat (lib : Library) (proxyURL : String) : Option GoError :=
  if !lib.IsURL proxyURL then some (proxyFormatError proxyURL)
  else
    match lib.Parse proxyURL with
    | .error _ => some (proxyFormatError proxyURL)
    | .ok u =>
        if u.Scheme == "https" then some (proxyHTTPSError proxyURL)
        else if u.Scheme != "http" then some (proxySchemeError proxyURL)
        else none

/-- The error of `validateNoProxyEntry`. -/
def noProxyEntryError (entry : String) : GoError :=
  .errorf (entry ++ " is not a valid no_proxy entry")

def validateNoProxyEntry (lib : Library) (entry : String) : Option GoError :=
  let s := strings.TrimPrefix entry "."
  if lib.IsIP s then none
  else if lib.IsCIDR s then none
  else if lib.IsDNSName s then none
  else some (noProxyEntryError entry)

/-- The error of `ValidateNoProxyFormat` for an entry met before. -/
def duplicateNoProxyError (s : String) : GoError :=
  .errorf ("duplicate no_proxy entry defined: " ++ s)

/-- The guidance text `ValidateNoProxyFormat` wraps an entry error with. -/
def noProxyGuidance : String :=
  "NO Proxy is a comma-separated list of destination domain names, domains, IP addresses or other network CIDRs. "
    ++ "A domain can be prefaced with '.' to include all subdomains of that domain. Use '*' to bypass proxy for all destinations with OpenShift 4.8 or later."

/-- The loop of `ValidateNoProxyFormat`; `dupTracker` is the map of the entries
met so far. -/
def ValidateNoProxyFormat.loop (lib : Library) :
    List String → List (String × String) → Option GoError
  | [], _ => none
  | s :: rest, dupTracker =>
      if (dupTracker.lookup s).isSome then some (duplicateNoProxyError s)
      else
        match validateNoProxyEntry lib s with
        | some err => some (.wrapf err noProxyGuidance)
        | none => ValidateNoProxyFormat.loop lib rest ((s, "") :: dupTracker)

/-- ValidateNoProxyFormat validates the no-proxy format which should be a
comma-separated list of destination domain names, domains, IP addresses or
other network CIDRs. A domain can be prefaced with '.' to include all
subdomains of that domain. -/
def ValidateNoProxyFormat (lib : Library) (noProxy : String) : Option GoError :=
  if noProxy = "*" then none
  else ValidateNoProxyFormat.loop lib (strings.Split noProxy ",") []

def tagRegex : String := "^\\w+( \\w+)*$"

def IsValidTag (tag : String) : Except Panic Bool :=
  match regexp.MustCompile tagRegex with
  | .error p => .error p
  | .ok re => .ok (re.MatchString tag)

/-- The error of `ValidateTags`. -/
def invalidTagsError (tags : String) : GoError :=
  .errorf ("Invalid format for Tags: " ++ tags
    ++ ". Tags should be a comma-separated list (e.g. tag1,tag2,tag3). "
    ++ "Each tag can consist of the following characters: Alphanumeric (aA-zZ, 0-9), underscore (_) and white-spaces.")

def ValidateTags (tags : String) : Except Panic (Option GoError) :=
  if tags = "" then .ok none
  else
    match AllStrings (strings.Split tags ",") IsValidTag with
    | .error p => .error p
    | .ok ok => if !ok then .ok (some (invalidTagsError tags)) else .ok none

/-! ## Specification side -/

/-- The words of a regular expression, given as derivations. -/
inductive Matches : Regex → List Char → Prop
  | empty : Matches Regex.empty []
  | cls {neg : Bool} {ranges : List (Nat × Nat)} {c : Char} :
      Regex.classMem neg ranges c = true → Matches (Regex.cls neg ranges) [c]
  | cat {a b : Regex} {u v : List Char} :
      Matches a u → Matches b v → Matches (Regex.cat a b) (u ++ v)
  | altL {a b : Regex} {u : List Char} : Matches a u → Matches (Regex.alt a b) u
  | altR {a b : Regex} {u : List Char} : Matches b u → Matches (Regex.alt a b) u
  | starNil {a : Regex} : Matches (Regex.star a) []
  | starCons {a : Regex} {u v : List Char} :
      Matches a u → Matches (Regex.star a) v → Matches (Regex.star a) (u ++ v)

/-- Lowercase letters and digits: the class `[a-z\d]`, also written `[a-z0-9]`. -/
def alnum : Regex := Regex.cls false [(97, 122), (48, 57)]

/-- The class `[\-]`. -/
def hyphen : Regex := Regex.cls false [(45, 45)]

/-- The class `[\d]`. -/
def digit : Regex := Regex.cls false [(48, 57)]

/-- The group `([\-]*[a-z\d]+)`: hyphens, then letters and digits. -/
def hyphenGroup : Regex := Regex.cat (Regex.star hyphen) (Regex.plus alnum)

/-- Body of `baseDomainRegex`. -/
def baseDomainBody : Regex := Regex.cat alnum (Regex.plus hyphenGroup)

/-- The group `([a-z\d]([\-]*[a-z\d]+)*\.)`: a label and its dot. -/
def dottedLabel : Regex :=
  Regex.cat alnum (Regex.cat (Regex.star hyphenGroup) (Regex.lit '.'))

/-- Body of `dnsNameRegex`. -/
def dnsNameBody : Regex :=
  Regex.cat (Regex.plus dottedLabel) (Regex.cat (Regex.plus alnum) (Regex.plus hyphenGroup))

/-- The wildcard marker. -/
def wildCardMarker : String := "validateNoWildcardDNS."

/-- Body of `wildCardDomainRegex`. -/
def wildCardDomainBody : Regex :=
  Regex.cat (Regex.catAll (wildCardMarker.data.map Regex.lit))
    (Regex.cat (Regex.plus Regex.dot) (Regex.opt (Regex.lit '.')))

/-- The class `[a-z0-9\-\.]`. -/
def hostnameInner : Regex := Regex.cls false [(97, 122), (48, 57), (45, 45), (46, 46)]

/-- Body of `hostnameRegex`. -/
def hostnameBody : Regex :=
  Regex.cat alnum (Regex.cat (Regex.repeatRange hostnameInner 0 (some 61)) alnum)

/-- Ranges of the class of `installerArgsValuesRegex`, in the order of the
pattern; `+-=` is the range from the plus sign to the equals sign. -/
def installerValueRanges : List (Nat × Nat) :=
  [(65, 90), (97, 122), (48, 57), (64, 64), (33, 33), (35, 35), (36, 36), (37, 37),
   (42, 42), (40, 40), (41, 41), (95, 95), (43, 61), (47, 47), (47, 47), (46, 46),
   (44, 44), (34, 34), (59, 59), (39, 39), (58, 58), (123, 123), (125, 125), (91, 91),
   (93, 93)]

/-- Body of `installerArgsValuesRegex`. -/
def installerValuesBody : Regex := Regex.plus (Regex.cls false installerValueRanges)

/-- Body of the flag pattern `^-+.*`. -/
def flagBody : Regex := Regex.cat (Regex.plus (Regex.lit '-')) (Regex.star Regex.dot)

/-- Body of the pattern of `isDottedDecimalDomain`. -/
def dottedDecimalBody : Regex :=
  Regex.cat (Regex.repeatRange (Regex.cat (Regex.plus digit) (Regex.lit '.')) 3 (some 3))
    (Regex.plus digit)

/-- The name `ValidateDomainNameFormat` applies its two grammars to: the input
with the wildcard marker and one trailing dot removed when the wildcard pattern
matches, the input itself otherwise. -/
def domainUnderCheck (dnsDomainName : String) : String :=
  match regexp.MatchString wildCardDomainRegex dnsDomainName with
  | .ok true => strings.TrimSuffix (strings.TrimPrefix dnsDomainName wildCardMarker) "."
  | _ => dnsDomainName

/-- The base-domain grammar: the base pattern and a length of 2 to 62. -/
def BaseDomainGrammar (d : String) : Prop :=
  regexp.MatchString baseDomainRegex d = .ok true ∧ 2 ≤ len d ∧ len d ≤ 62

/-- The DNS-name grammar: the DNS-name pattern, no dotted-decimal match and a
length of at most 255. -/
def DNSNameGrammar (d : String) : Prop :=
  regexp.MatchString dnsNameRegex d = .ok true ∧ isDottedDecimalDomain d = .ok false ∧
    len d ≤ 255

/-- Lowercase letter or digit. -/
def isLowerAlnum (c : Char) : Bool := c.isLower || c.isDigit

/-- Lowercase letter, digit or hyphen. -/
def isLabelChar (c : Char) : Bool := isLowerAlnum c || c == '-'

/-- The ranges of all the classes of an expression. -/
def Regex.alphabet : Regex → List (Nat × Nat)
  | Regex.nothing => []
  | Regex.empty => []
  | Regex.cls _ ranges => ranges
  | Regex.cat a b => Regex.alphabet a ++ Regex.alphabet b
  | Regex.alt a b => Regex.alphabet a ++ Regex.alphabet b
  | Regex.star a => Regex.alphabet a

/-- No class of the expression is negated. -/
def Regex.positive : Regex → Bool
  | Regex.nothing => true
  | Regex.empty => true
  | Regex.cls neg _ => !neg
  | Regex.cat a b => Regex.positive a && Regex.positive b
  | Regex.alt a b => Regex.positive a && Regex.positive b
  | Regex.star a => Regex.positive a

/-- The groups of a text between the occurrences of a separator. -/
def splitOnChar (sep : Char) : List Char → List (List Char)
  | [] => [[]]
  | c :: cs =>
      if c = sep then [] :: splitOnChar sep cs
      else
        match splitOnChar sep cs with
        | g :: gs => (c :: g) :: gs
        | [] => [[c]]

/-- A dotted-decimal string in the words of the specification: exactly four
dot-separated groups of digits. -/
def isDottedDecimalString (s : String) : Bool :=
  let groups := splitOnChar '.' s.data
  groups.length == 4 && groups.all fun g => !g.isEmpty && g.all Char.isDigit

/-- The punctuation the specification documents for installer values. -/
def documentedPunctuation : List Char := "@!#$%*()_+-=/.,\";':\x7b\x7d[]".data

/-- The characters the specification documents for installer values: ASCII
letters, ASCII digits and the documented punctuation. -/
def isDocumentedValueChar (c : Char) : Bool :=
  c.isAlpha || c.isDigit || documentedPunctuation.contains c

/-- Lowercase letter, digit, hyphen or dot. -/
def isHostnameChar (c : Char) : Bool := isLabelChar c || c == '.'

/-- Word character: ASCII letter, digit or underscore. -/
def isWordChar (c : Char) : Bool := c.isAlpha || c.isDigit || c == '_'

/-- The class `\w`. -/
def word : Regex := Regex.cls false Regex.wordRanges

/-- The group `( \w+)`: a space, then word characters. -/
def spacedWord : Regex := Regex.cat (Regex.lit ' ') (Regex.plus word)

/-- Body of `tagRegex`. -/
def tagBody : Regex := Regex.cat (Regex.plus word) (Regex.star spacedWord)

/-- No two adjacent characters of the text are both spaces. -/
def NoDoubleSpace (w : List Char) : Prop :=
  w.Chain' fun a b => ¬ (a = ' ' ∧ b = ' ')

/-- The shape of a run of spaced words: word characters and spaces, no two
adjacent spaces, a space first and a word character last. -/
def SpacedRun (y : List Char) : Prop :=
  (∀ c ∈ y, isWordChar c = true ∨ c = ' ') ∧ NoDoubleSpace y ∧
    (∀ c ∈ y.head?, c = ' ') ∧ (∀ c ∈ y.getLast?, isWordChar c = true)

/-- A library for concrete instances: nothing parses as an IP address, every
text parses as a URL without a scheme, and of the `govalidator` predicates only
`IsDNSName` holds, of `a.com` alone. -/
def sampleLibrary : Library :=
  ⟨fun _ => none, fun _ => .ok ⟨""⟩, fun _ => false, fun _ => false, fun _ => false,
    fun s => s == "a.com"⟩

/-- An entry of a no-proxy list is valid when, a leading dot removed, it is an
IP address, a CIDR block or a DNS name. -/
def ValidNoProxyEntry (lib : Library) (entry : String) : Prop :=
  lib.IsIP (strings.TrimPrefix entry ".") = true ∨
    lib.IsCIDR (strings.TrimPrefix entry ".") = true ∨
    lib.IsDNSName (strings.TrimPrefix entry ".") = true

/-- The last dot-separated label of a text: the text after its final dot, or
the whole text when it has no dot. -/
def lastLabel : List Char → List Char
  | [] => []
  | c :: cs => if '.' ∈ cs then lastLabel cs else if c = '.' then cs else c :: cs

/-- The final part `[a-z\d]+([\-]*[a-z\d]+)+` of the DNS-name pattern. -/
def finalLabel : Regex := Regex.cat (Regex.plus alnum) (Regex.plus hyphenGroup)

/-- A library for concrete URLs: every text is a well-formed URL, and the
scheme of a text is `https` or `http` when the text starts with it and a colon,
and empty otherwise. -/
def schemeLibrary : Library :=
  ⟨fun _ => none,
    fun s =>
      if "https:".data.isPrefixOf s.data then .ok ⟨"https"⟩
      else if "http:".data.isPrefixOf s.data then .ok ⟨"http"⟩
      else .ok ⟨""⟩,
    fun _ => true, fun _ => false, fun _ => false, fun _ => false⟩

/-! ## Correctness of the derivative matcher -/

namespace Matches

open Regex

theorem not_nothing (w : List Char) : ¬ Matches nothing w := by
  intro h; cases h

theorem empty_iff {w : List Char} : Matches Regex.empty w ↔ w = [] := by
  constructor
  · intro h; cases h; rfl
  · rintro rfl; exact Matches.empty

theorem cls_iff {neg : Bool} {ranges : List (Nat × Nat)} {w : List Char} :
    Matches (Regex.cls neg ranges) w ↔ ∃ c, w = [c] ∧ classMem neg ranges c = true := by
  constructor
  · intro h; cases h with
    | cls hc => exact ⟨_, rfl, hc⟩
  · rintro ⟨c, rfl, hc⟩; exact Matches.cls hc

theorem cat_iff {a b : Regex} {w : List Char} :
    Matches (Regex.cat a b) w ↔ ∃ u v, w = u ++ v ∧ Matches a u ∧ Matches b v := by
  constructor
  · intro h; cases h with
    | cat ha hb => exact ⟨_, _, rfl, ha, hb⟩
  · rintro ⟨u, v, rfl, ha, hb⟩; exact Matches.cat ha hb

theorem alt_iff {a b : Regex} {w : List Char} :
    Matches (Regex.alt a b) w ↔ Matches a w ∨ Matches b w := by
  constructor
  · intro h; cases h with
    | altL ha => exact Or.inl ha
    | altR hb => exact Or.inr hb
  · rintro (ha | hb)
    · exact Matches.altL ha
    · exact Matches.altR hb

/-- A non-empty word of a starred expression starts with a non-empty word of
the expression. -/
theorem star_cons_inv {a : Regex} {c : Char} {w : List Char}
    (h : Matches (Regex.star a) (c :: w)) :
    ∃ u v, w = u ++ v ∧ Matches a (c :: u) ∧ Matches (Regex.star a) v := by
  generalize hr : Regex.star a = r at h
  generalize hx : c :: w = x at h
  induction h with
  | empty => cases hr
  | cls _ => cases hr
  | cat _ _ _ _ => cases hr
  | altL _ _ => cases hr
  | altR _ _ => cases hr
  | starNil => cases hx
  | @starCons a2 u v h1 h2 _ ih2 =>
      cases hr
      cases u with
      | nil => exact ih2 rfl (by simpa using hx)
      | cons d u2 =>
          simp only [List.cons_append, List.cons.injEq] at hx
          obtain ⟨rfl, rfl⟩ := hx
          exact ⟨u2, v, rfl, h1, h2⟩

theorem star_cons_iff {a : Regex} {c : Char} {w : List Char} :
    Matches (Regex.star a) (c :: w) ↔
      ∃ u v, w = u ++ v ∧ Matches a (c :: u) ∧ Matches (Regex.star a) v := by
  constructor
  · exact star_cons_inv
  · rintro ⟨u, v, rfl, h1, h2⟩
    exact Matches.starCons h1 h2

theorem nullable_iff (r : Regex) : nullable r = true ↔ Matches r [] := by
  induction r with
  | nothing => simp [nullable, not_nothing]
  | empty => simp [nullable, empty_iff]
  | cls neg ranges => simp [nullable, cls_iff]
  | cat a b iha ihb =>
      simp only [nullable, Bool.and_eq_true, iha, ihb, cat_iff]
      constructor
      · rintro ⟨ha, hb⟩; exact ⟨[], [], rfl, ha, hb⟩
      · rintro ⟨u, v, huv, ha, hb⟩
        have h := List.append_eq_nil.mp huv.symm
        rw [h.1] at ha; rw [h.2] at hb
        exact ⟨ha, hb⟩
  | alt a b iha ihb => simp [nullable, iha, ihb, alt_iff]
  | star a _ => simp [nullable, Matches.starNil]

theorem deriv_iff (r : Regex) (c : Char) (w : List Char) :
    Matches (Regex.deriv r c) w ↔ Matches r (c :: w) := by
  induction r generalizing w with
  | nothing => simp [Regex.deriv, not_nothing]
  | empty => simp [Regex.deriv, not_nothing, empty_iff]
  | cls neg ranges =>
      simp only [Regex.deriv, cls_iff]
      by_cases hc : classMem neg ranges c = true
      · simp only [hc, if_true, empty_iff, List.cons.injEq]
        constructor
        · rintro rfl; exact ⟨c, ⟨rfl, rfl⟩, hc⟩
        · rintro ⟨_, ⟨_, hw⟩, _⟩; exact hw
      · simp only [hc, if_false, Bool.false_eq_true]
        constructor
        · intro h; exact absurd h (not_nothing w)
        · rintro ⟨d, hd, hm⟩
          simp only [List.cons.injEq] at hd
          rw [← hd.1] at hm; exact absurd hm hc
  | cat a b iha ihb =>
      have key : Matches (Regex.cat a b) (c :: w) ↔
          (∃ u v, w = u ++ v ∧ Matches a (c :: u) ∧ Matches b v) ∨
            (Matches a [] ∧ Matches b (c :: w)) := by
        rw [cat_iff]
        constructor
        · rintro ⟨u, v, huv, ha, hb⟩
          cases u with
          | nil => right; simp only [List.nil_append] at huv; rw [huv]; exact ⟨ha, hb⟩
          | cons d u2 =>
              left
              simp only [List.cons_append, List.cons.injEq] at huv
              obtain ⟨rfl, rfl⟩ := huv
              exact ⟨u2, v, rfl, ha, hb⟩
        · rintro (⟨u, v, rfl, ha, hb⟩ | ⟨ha, hb⟩)
          · exact ⟨c :: u, v, rfl, ha, hb⟩
          · exact ⟨[], c :: w, rfl, ha, hb⟩
      rw [key]
      simp only [Regex.deriv]
      by_cases hn : nullable a = true
      · simp only [hn, if_true, alt_iff, cat_iff, iha, ihb]
        have hn2 := (nullable_iff a).mp hn
        constructor
        · rintro (h | h)
          · exact Or.inl h
          · exact Or.inr ⟨hn2, h⟩
        · rintro (h | ⟨_, h⟩)
          · exact Or.inl h
          · exact Or.inr h
      · simp only [hn, if_false, Bool.false_eq_true, cat_iff, iha]
        constructor
        · intro h; exact Or.inl h
        · rintro (h | ⟨h, _⟩)
          · exact h
          · exact absurd ((nullable_iff a).mpr h) hn
  | alt a b iha ihb => simp [Regex.deriv, alt_iff, iha, ihb]
  | star a iha =>
      simp only [Regex.deriv, cat_iff, iha, star_cons_iff]

/-- The derivative matcher decides membership. -/
theorem rmatch_iff (r : Regex) (w : List Char) : rmatch r w = true ↔ Matches r w := by
  induction w generalizing r with
  | nil => simp [rmatch, nullable_iff]
  | cons c cs ih => simp [rmatch, ih, deriv_iff]

end Matches

/-! ## The compiled patterns -/

theorem compile_baseDomainRegex :
    Syntax.compile baseDomainRegex = some ⟨true, true, baseDomainBody⟩ := by decide

theorem compile_dnsNameRegex :
    Syntax.compile dnsNameRegex = some ⟨true, true, dnsNameBody⟩ := by decide

theorem compile_wildCardDomainRegex :
    Syntax.compile wildCardDomainRegex = some ⟨true, true, wildCardDomainBody⟩ := by decide

theorem compile_hostnameRegex :
    Syntax.compile hostnameRegex = some ⟨true, true, hostnameBody⟩ := by decide

theorem compile_installerArgsValuesRegex :
    Syntax.compile installerArgsValuesRegex = some ⟨true, true, installerValuesBody⟩ := by
  decide

theorem compile_flagPattern :
    Syntax.compile "^-+.*" = some ⟨true, false, flagBody⟩ := by decide

theorem compile_dottedDecimalPattern :
    Syntax.compile "([\\d]+\\.)\x7b3\x7d[\\d]+" = some ⟨false, false, dottedDecimalBody⟩ := by
  decide

theorem matchString_baseDomainRegex (s : String) :
    regexp.MatchString baseDomainRegex s
      = .ok (Regexp.MatchString ⟨true, true, baseDomainBody⟩ s) := by
  simp [regexp.MatchString, regexp.Compile, compile_baseDomainRegex]

theorem matchString_dnsNameRegex (s : String) :
    regexp.MatchString dnsNameRegex s
      = .ok (Regexp.MatchString ⟨true, true, dnsNameBody⟩ s) := by
  simp [regexp.MatchString, regexp.Compile, compile_dnsNameRegex]

theorem matchString_wildCardDomainRegex (s : String) :
    regexp.MatchString wildCardDomainRegex s
      = .ok (Regexp.MatchString ⟨true, true, wildCardDomainBody⟩ s) := by
  simp [regexp.MatchString, regexp.Compile, compile_wildCardDomainRegex]

theorem matchString_hostnameRegex (s : String) :
    regexp.MatchString hostnameRegex s
      = .ok (Regexp.MatchString ⟨true, true, hostnameBody⟩ s) := by
  simp [regexp.MatchString, regexp.Compile, compile_hostnameRegex]

theorem isDottedDecimalDomain_eq (s : String) :
    isDottedDecimalDomain s
      = .ok (Regexp.MatchString ⟨false, false, dottedDecimalBody⟩ s) := by
  simp [isDottedDecimalDomain, regexp.MustCompile, compile_dottedDecimalPattern]

/-! ## Matching a text against a compiled pattern -/

theorem Matches.star_anyChar (w : List Char) : Matches (Regex.star Regex.anyChar) w := by
  induction w with
  | nil => exact Matches.starNil
  | cons c cs ih =>
      have h : Matches Regex.anyChar [c] := Matches.cls (by simp [Regex.classMem, Regex.inRanges])
      exact Matches.starCons h ih

/-- A text has a match of a pattern when some segment of it is a word of the
body, the segment starting the text under `^` and ending it under `$`. -/
theorem Regexp.matchString_iff (re : Regexp) (s : String) :
    re.MatchString s = true ↔
      ∃ p u q, s.data = p ++ (u ++ q) ∧ (re.bol = true → p = []) ∧
        (re.eol = true → q = []) ∧ Matches re.body u := by
  unfold Regexp.MatchString Regexp.full
  rw [Matches.rmatch_iff, Matches.cat_iff]
  constructor
  · rintro ⟨p, w, hs, hp, hw⟩
    rw [Matches.cat_iff] at hw
    obtain ⟨u, q, rfl, hu, hq⟩ := hw
    refine ⟨p, u, q, hs, ?_, ?_, hu⟩
    · intro hb
      rw [hb] at hp
      exact Matches.empty_iff.mp hp
    · intro he
      rw [he] at hq
      exact Matches.empty_iff.mp hq
  · rintro ⟨p, u, q, hs, hp, hq, hu⟩
    refine ⟨p, u ++ q, hs, ?_, Matches.cat_iff.mpr ⟨u, q, rfl, hu, ?_⟩⟩
    · cases hb : re.bol with
      | true => rw [hp hb]; exact Matches.empty
      | false => exact Matches.star_anyChar p
    · cases he : re.eol with
      | true => rw [hq he]; exact Matches.empty
      | false => exact Matches.star_anyChar q

/-- Under both anchors the whole text is a word of the body. -/
theorem Regexp.matchString_anchored (body : Regex) (s : String) :
    Regexp.MatchString ⟨true, true, body⟩ s = true ↔ Matches body s.data := by
  rw [Regexp.matchString_iff]
  constructor
  · rintro ⟨p, u, q, hs, hp, hq, hu⟩
    have h1 : p = [] := hp rfl
    have h2 : q = [] := hq rfl
    subst h1; subst h2
    simpa [hs] using hu
  · intro h
    exact ⟨[], s.data, [], by simp, fun _ => rfl, fun _ => rfl, h⟩

/-! ## The structure of `ValidateDomainNameFormat` -/

/-- The validator answers `(0, nil)` when the name under check satisfies one of
the two grammars and `(400, error)` when it satisfies neither. -/
theorem validateDomainNameFormat_cases (s : String) :
    (ValidateDomainNameFormat s = .ok (0, none) ∧
        (BaseDomainGrammar (domainUnderCheck s) ∨ DNSNameGrammar (domainUnderCheck s))) ∨
      (ValidateDomainNameFormat s = .ok (StatusBadRequest, some (dnsFormatMismatch s)) ∧
        ¬ (BaseDomainGrammar (domainUnderCheck s) ∨ DNSNameGrammar (domainUnderCheck s))) := by
  have h : ValidateDomainNameFormat s =
      (match regexp.MatchString baseDomainRegex (domainUnderCheck s) with
        | .error err =>
            .ok (StatusInternalServerError,
              some (.wrapf err ("Single DNS base domain validation for " ++ s)))
        | .ok matched =>
          if matched && decide (len (domainUnderCheck s) > 1)
              && decide (len (domainUnderCheck s) < 63) then
            .ok (0, none)
          else
            match regexp.MatchString dnsNameRegex (domainUnderCheck s) with
            | .error err =>
                .ok (StatusInternalServerError,
                  some (.wrapf err ("DNS name validation for " ++ s)))
            | .ok matched =>
              if !matched then .ok (StatusBadRequest, some (dnsFormatMismatch s))
              else
                match isDottedDecimalDomain (domainUnderCheck s) with
                | .error p => .error p
                | .ok dotted =>
                  if dotted || decide (len (domainUnderCheck s) > 255) then
                    .ok (StatusBadRequest, some (dnsFormatMismatch s))
                  else .ok (0, none)) := rfl
  rw [h]
  unfold BaseDomainGrammar DNSNameGrammar
  rw [matchString_baseDomainRegex, matchString_dnsNameRegex, isDottedDecimalDomain_eq]
  generalize domainUnderCheck s = d
  cases hb : Regexp.MatchString ⟨true, true, baseDomainBody⟩ d <;>
  cases hd : Regexp.MatchString ⟨true, true, dnsNameBody⟩ d <;>
  cases hx : Regexp.MatchString ⟨false, false, dottedDecimalBody⟩ d <;>
  by_cases h1 : 1 < len d <;> by_cases h2 : len d < 63 <;> by_cases h3 : 255 < len d <;>
  simp [StatusBadRequest, h1, h2, h3] <;> omega

/-! ## Characters and lengths -/

theorem char_eq_of_toNat_eq {c d : Char} (h : c.toNat = d.toNat) : c = d := by
  rw [← Char.ofNat_toNat c, ← Char.ofNat_toNat d, h]

theorem isLowerAlnum_iff (c : Char) :
    isLowerAlnum c = true ↔
      (97 ≤ c.toNat ∧ c.toNat ≤ 122) ∨ (48 ≤ c.toNat ∧ c.toNat ≤ 57) := by
  have h : isLowerAlnum c = (decide (97 ≤ c.toNat) && decide (c.toNat ≤ 122)
      || decide (48 ≤ c.toNat) && decide (c.toNat ≤ 57)) := rfl
  rw [h]; simp

theorem isLabelChar_iff (c : Char) :
    isLabelChar c = true ↔
      (97 ≤ c.toNat ∧ c.toNat ≤ 122) ∨ (48 ≤ c.toNat ∧ c.toNat ≤ 57) ∨ c.toNat = 45 := by
  unfold isLabelChar
  rw [Bool.or_eq_true, isLowerAlnum_iff, beq_iff_eq, or_assoc]
  have h : c = '-' ↔ c.toNat = 45 :=
    ⟨fun h => by rw [h]; rfl, fun h => char_eq_of_toNat_eq h⟩
  rw [h]

theorem utf8Size_of_ascii (c : Char) (h : c.toNat ≤ 127) : c.utf8Size = 1 := by
  have h2 : c.val ≤ UInt32.ofNatCore 127 (by decide) := h
  unfold Char.utf8Size
  exact if_pos h2

/-- The byte length of an ASCII text is its number of characters. -/
theorem len_of_ascii (s : String) (h : ∀ c ∈ s.data, c.toNat ≤ 127) : len s = s.length := by
  obtain ⟨w⟩ := s
  show String.utf8ByteSize ⟨w⟩ = w.length
  simp only at h
  induction w with
  | nil => rfl
  | cons c cs ih =>
      simp only [String.utf8ByteSize, String.utf8ByteSize.go, List.length_cons] at *
      rw [ih (fun d hd => h d (List.mem_cons_of_mem _ hd)),
        utf8Size_of_ascii c (h c (List.mem_cons_self _ _))]

/-! ## Alphabets -/

theorem inRanges_append (r1 r2 : List (Nat × Nat)) (c : Char) :
    Regex.inRanges (r1 ++ r2) c = (Regex.inRanges r1 c || Regex.inRanges r2 c) := by
  simp [Regex.inRanges, List.any_append]

/-- Every character of a word of an expression without negated classes lies in
one of its ranges. -/
theorem Matches.mem_alphabet {r : Regex} {w : List Char} (h : Matches r w)
    (hp : r.positive = true) : ∀ c ∈ w, Regex.inRanges r.alphabet c = true := by
  induction h with
  | empty => intro c hc; cases hc
  | @cls neg ranges c hm =>
      intro d hd
      simp only [Regex.positive, Bool.not_eq_true'] at hp
      subst hp
      simp only [List.mem_singleton] at hd
      subst hd
      simpa [Regex.classMem, Regex.alphabet] using hm
  | cat _ _ iha ihb =>
      simp only [Regex.positive, Bool.and_eq_true] at hp
      intro c hc
      simp only [Regex.alphabet, inRanges_append, Bool.or_eq_true]
      rcases List.mem_append.mp hc with h1 | h1
      · exact Or.inl (iha hp.1 c h1)
      · exact Or.inr (ihb hp.2 c h1)
  | altL _ iha =>
      simp only [Regex.positive, Bool.and_eq_true] at hp
      intro c hc
      simp only [Regex.alphabet, inRanges_append, Bool.or_eq_true]
      exact Or.inl (iha hp.1 c hc)
  | altR _ ihb =>
      simp only [Regex.positive, Bool.and_eq_true] at hp
      intro c hc
      simp only [Regex.alphabet, inRanges_append, Bool.or_eq_true]
      exact Or.inr (ihb hp.2 c hc)
  | starNil => intro c hc; cases hc
  | starCons _ _ iha ihb =>
      intro c hc
      rcases List.mem_append.mp hc with h1 | h1
      · exact iha hp c h1
      · exact ihb hp c h1

/-- The words of the base-domain pattern are made of lowercase letters, digits
and hyphens. -/
theorem baseDomainBody_chars {w : List Char} (h : Matches baseDomainBody w) :
    ∀ c ∈ w, isLabelChar c = true := by
  intro c hc
  have h1 := h.mem_alphabet (by decide) c hc
  rw [isLabelChar_iff]
  simp [baseDomainBody, hyphenGroup, alnum, hyphen, Regex.plus, Regex.alphabet,
    Regex.inRanges] at h1
  omega

/-! ## Stars and classes -/

/-- Induction over the words of a starred expression. -/
theorem Matches.star_induction {a : Regex} {P : List Char → Prop} (h0 : P [])
    (hs : ∀ u v, Matches a u → Matches (Regex.star a) v → P v → P (u ++ v))
    {w : List Char} (h : Matches (Regex.star a) w) : P w := by
  generalize hr : Regex.star a = r at h
  induction h with
  | empty => cases hr
  | cls _ => cases hr
  | cat _ _ _ _ => cases hr
  | altL _ _ => cases hr
  | altR _ _ => cases hr
  | starNil => exact h0
  | starCons h1 h2 _ ih2 =>
      cases hr
      exact hs _ _ h1 h2 (ih2 rfl)

theorem Matches.star_cls_iff {neg : Bool} {ranges : List (Nat × Nat)} {w : List Char} :
    Matches (Regex.star (Regex.cls neg ranges)) w ↔
      ∀ c ∈ w, Regex.classMem neg ranges c = true := by
  constructor
  · intro h
    refine Matches.star_induction (P := fun w => ∀ c ∈ w, Regex.classMem neg ranges c = true)
      ?_ ?_ h
    · intro c hc; cases hc
    · intro u v hu _ hv c hc
      obtain ⟨d, rfl, hd⟩ := Matches.cls_iff.mp hu
      rcases List.mem_append.mp hc with h1 | h1
      · rw [List.mem_singleton.mp h1]; exact hd
      · exact hv c h1
  · intro h
    induction w with
    | nil => exact Matches.starNil
    | cons c cs ih =>
        have h1 : Matches (Regex.cls neg ranges) [c] :=
          Matches.cls (h c (List.mem_cons_self _ _))
        exact Matches.starCons h1 (ih fun d hd => h d (List.mem_cons_of_mem _ hd))

theorem Matches.plus_cls_iff {neg : Bool} {ranges : List (Nat × Nat)} {w : List Char} :
    Matches (Regex.plus (Regex.cls neg ranges)) w ↔
      w ≠ [] ∧ ∀ c ∈ w, Regex.classMem neg ranges c = true := by
  unfold Regex.plus
  rw [Matches.cat_iff]
  constructor
  · rintro ⟨u, v, rfl, hu, hv⟩
    obtain ⟨d, rfl, hd⟩ := Matches.cls_iff.mp hu
    refine ⟨by simp, ?_⟩
    intro c hc
    rcases List.mem_append.mp hc with h1 | h1
    · rw [List.mem_singleton.mp h1]; exact hd
    · exact Matches.star_cls_iff.mp hv c h1
  · rintro ⟨hne, h⟩
    cases w with
    | nil => exact absurd rfl hne
    | cons c cs =>
        exact ⟨[c], cs, rfl, Matches.cls (h c (List.mem_cons_self _ _)),
          Matches.star_cls_iff.mpr fun d hd => h d (List.mem_cons_of_mem _ hd)⟩

/-- A word of `r+` is a word of `r*`. -/
theorem Matches.star_of_plus {a : Regex} {w : List Char} (h : Matches (Regex.plus a) w) :
    Matches (Regex.star a) w := by
  obtain ⟨u, v, rfl, hu, hv⟩ := Matches.cat_iff.mp h
  exact Matches.starCons hu hv

theorem classMem_alnum (c : Char) :
    Regex.classMem false [(97, 122), (48, 57)] c = true ↔ isLowerAlnum c = true := by
  rw [isLowerAlnum_iff]
  simp [Regex.classMem, Regex.inRanges]

theorem classMem_hyphen (c : Char) :
    Regex.classMem false [(45, 45)] c = true ↔ c = '-' := by
  simp only [Regex.classMem, Regex.inRanges, Bool.false_eq_true, if_false, List.any_cons,
    List.any_nil, Bool.or_false, Bool.and_eq_true, decide_eq_true_eq]
  constructor
  · intro h; exact char_eq_of_toNat_eq (Nat.le_antisymm h.2 h.1)
  · rintro rfl; exact ⟨by decide, by decide⟩

theorem matches_alnum {w : List Char} :
    Matches alnum w ↔ ∃ c, w = [c] ∧ isLowerAlnum c = true := by
  unfold alnum
  rw [Matches.cls_iff]
  simp only [classMem_alnum]

theorem matches_plus_alnum {w : List Char} :
    Matches (Regex.plus alnum) w ↔ w ≠ [] ∧ ∀ c ∈ w, isLowerAlnum c = true := by
  unfold alnum
  rw [Matches.plus_cls_iff]
  simp only [classMem_alnum]

theorem matches_star_hyphen {w : List Char} :
    Matches (Regex.star hyphen) w ↔ ∀ c ∈ w, c = '-' := by
  unfold hyphen
  rw [Matches.star_cls_iff]
  simp only [classMem_hyphen]

/-! ## The base-domain pattern -/

/-- A word of a hyphen group is not empty and ends with a letter or digit. -/
theorem hyphenGroup_last {u : List Char} (h : Matches hyphenGroup u) :
    u ≠ [] ∧ ∀ c ∈ u.getLast?, isLowerAlnum c = true := by
  obtain ⟨x, y, rfl, _, hy⟩ := Matches.cat_iff.mp h
  obtain ⟨hne, hy2⟩ := matches_plus_alnum.mp hy
  refine ⟨by simp [hne], ?_⟩
  intro c hc
  rw [List.getLast?_append_of_ne_nil _ hne] at hc
  exact hy2 c (List.mem_of_mem_getLast? hc)

/-- A word of a run of hyphen groups ends with a letter or digit, if it ends. -/
theorem star_hyphenGroup_last {v : List Char} (h : Matches (Regex.star hyphenGroup) v) :
    ∀ c ∈ v.getLast?, isLowerAlnum c = true := by
  refine Matches.star_induction (P := fun v => ∀ c ∈ v.getLast?, isLowerAlnum c = true)
    ?_ ?_ h
  · intro c hc; cases hc
  · intro x y hx _ hy c hc
    by_cases hne : y = []
    · subst hne
      rw [List.append_nil] at hc
      exact (hyphenGroup_last hx).2 c hc
    · rw [List.getLast?_append_of_ne_nil _ hne] at hc
      exact hy c hc

theorem plus_hyphenGroup_last {w : List Char} (h : Matches (Regex.plus hyphenGroup) w) :
    w ≠ [] ∧ ∀ c ∈ w.getLast?, isLowerAlnum c = true := by
  have h2 := star_hyphenGroup_last (Matches.star_of_plus h)
  obtain ⟨x, y, rfl, hx, _⟩ := Matches.cat_iff.mp h
  exact ⟨by simp [(hyphenGroup_last hx).1], h2⟩

/-- A single letter or digit is a hyphen group. -/
theorem hyphenGroup_single {c : Char} (hc : isLowerAlnum c = true) :
    Matches hyphenGroup [c] := by
  have h1 : Matches (Regex.star hyphen) [] := Matches.starNil
  have h2 : Matches (Regex.plus alnum) [c] :=
    matches_plus_alnum.mpr ⟨by simp, by simpa using hc⟩
  exact Matches.cat h1 h2

/-- A hyphen in front of a hyphen group gives a hyphen group. -/
theorem hyphenGroup_cons_hyphen {g : List Char} (h : Matches hyphenGroup g) :
    Matches hyphenGroup ('-' :: g) := by
  obtain ⟨x, y, rfl, hx, hy⟩ := Matches.cat_iff.mp h
  have hx2 : Matches (Regex.star hyphen) ('-' :: x) := by
    rw [matches_star_hyphen] at hx ⊢
    intro c hc
    rcases List.mem_cons.mp hc with h1 | h1
    · exact h1
    · exact hx c h1
  exact Matches.cat hx2 hy

/-- Every non-empty text of letters, digits and hyphens that ends with a letter
or digit is a run of hyphen groups. -/
theorem plus_hyphenGroup_of {w : List Char} (hne : w ≠ [])
    (hall : ∀ c ∈ w, isLabelChar c = true)
    (hlast : ∀ c ∈ w.getLast?, isLowerAlnum c = true) :
    Matches (Regex.plus hyphenGroup) w := by
  induction w with
  | nil => exact absurd rfl hne
  | cons c t ih =>
      cases t with
      | nil =>
          have hc : isLowerAlnum c = true := hlast c (by simp)
          exact Matches.cat (hyphenGroup_single hc) Matches.starNil
      | cons d t2 =>
          have ih2 := ih (by simp) (fun x hx => hall x (List.mem_cons_of_mem _ hx))
            (fun x hx => hlast x (by rw [List.getLast?_cons_cons]; exact hx))
          have hc := hall c (List.mem_cons_self _ _)
          unfold isLabelChar at hc
          rw [Bool.or_eq_true, beq_iff_eq] at hc
          rcases hc with hc | hc
          · exact Matches.cat (hyphenGroup_single hc) (Matches.star_of_plus ih2)
          · subst hc
            obtain ⟨g, r, hgr, hg, hr⟩ := Matches.cat_iff.mp ih2
            rw [hgr]
            exact Matches.cat (hyphenGroup_cons_hyphen hg) hr

/-- The words of the base-domain pattern: at least two characters, all of them
lowercase letters, digits or hyphens, the first and the last a letter or digit. -/
theorem baseDomainBody_iff (w : List Char) :
    Matches baseDomainBody w ↔
      2 ≤ w.length ∧ (∀ c ∈ w, isLabelChar c = true) ∧
        (∀ c ∈ w.head?, isLowerAlnum c = true) ∧
        (∀ c ∈ w.getLast?, isLowerAlnum c = true) := by
  constructor
  · intro h
    refine ⟨?_, baseDomainBody_chars h, ?_, ?_⟩
    all_goals
      obtain ⟨x, y, rfl, hx, hy⟩ := Matches.cat_iff.mp h
      obtain ⟨c, rfl, hc⟩ := matches_alnum.mp hx
      obtain ⟨hne, hl⟩ := plus_hyphenGroup_last hy
    · cases y with
      | nil => exact absurd rfl hne
      | cons d t => simp
    · intro d hd
      simp only [List.singleton_append, List.head?_cons, Option.mem_def,
        Option.some.injEq] at hd
      rw [← hd]; exact hc
    · intro d hd
      rw [List.getLast?_append_of_ne_nil _ hne] at hd
      exact hl d hd
  · rintro ⟨hlen, hall, hhead, hlast⟩
    cases w with
    | nil => simp at hlen
    | cons c t =>
        have hc : isLowerAlnum c = true := hhead c (by simp)
        have hne : t ≠ [] := by
          intro ht; subst ht; simp at hlen
        have ht : Matches (Regex.plus hyphenGroup) t := by
          refine plus_hyphenGroup_of hne (fun x hx => hall x (List.mem_cons_of_mem _ hx)) ?_
          intro x hx
          apply hlast x
          have : (c :: t) = [c] ++ t := rfl
          rw [this, List.getLast?_append_of_ne_nil _ hne]
          exact hx
        exact Matches.cat (matches_alnum.mpr ⟨c, rfl, hc⟩) ht

/-! ## Literals, the dot and the wildcard pattern -/

theorem matches_lit {c : Char} {w : List Char} : Matches (Regex.lit c) w ↔ w = [c] := by
  unfold Regex.lit
  rw [Matches.cls_iff]
  constructor
  · rintro ⟨d, rfl, hd⟩
    simp only [Regex.classMem, Regex.inRanges, Bool.false_eq_true, if_false, List.any_cons,
      List.any_nil, Bool.or_false, Bool.and_eq_true, decide_eq_true_eq] at hd
    rw [char_eq_of_toNat_eq (Nat.le_antisymm hd.2 hd.1)]
  · rintro rfl
    exact ⟨c, rfl, by simp [Regex.classMem, Regex.inRanges]⟩

theorem matches_catAll_lit (cs w : List Char) :
    Matches (Regex.catAll (cs.map Regex.lit)) w ↔ w = cs := by
  induction cs generalizing w with
  | nil => simp [Regex.catAll, Matches.empty_iff]
  | cons c t ih =>
      cases t with
      | nil => simp [Regex.catAll, matches_lit]
      | cons d t2 =>
          simp only [List.map_cons, Regex.catAll, Matches.cat_iff, matches_lit]
          simp only [List.map_cons] at ih
          constructor
          · rintro ⟨u, v, rfl, rfl, hv⟩
            rw [(ih v).mp hv]; rfl
          · rintro rfl
            exact ⟨[c], d :: t2, rfl, rfl, (ih _).mpr rfl⟩

theorem classMem_dot (c : Char) : Regex.classMem true [(10, 10)] c = true ↔ c ≠ '\n' := by
  simp only [Regex.classMem, Regex.inRanges, if_true, List.any_cons, List.any_nil,
    Bool.or_false, Bool.not_eq_true', Bool.and_eq_false_iff, decide_eq_false_iff_not]
  constructor
  · intro h hc
    subst hc
    rcases h with h | h <;> exact h (by decide)
  · intro h
    by_contra hcon
    simp only [not_or, not_not] at hcon
    exact h (char_eq_of_toNat_eq (Nat.le_antisymm hcon.2 hcon.1))

theorem matches_plus_dot {w : List Char} :
    Matches (Regex.plus Regex.dot) w ↔ w ≠ [] ∧ '\n' ∉ w := by
  unfold Regex.dot
  rw [Matches.plus_cls_iff]
  simp only [classMem_dot]
  constructor
  · rintro ⟨h1, h2⟩
    exact ⟨h1, fun h => h2 _ h rfl⟩
  · rintro ⟨h1, h2⟩
    exact ⟨h1, fun c hc hn => h2 (hn ▸ hc)⟩

/-- The words of the wildcard pattern: the marker followed by a non-empty text
without a newline. -/
theorem wildCardDomainBody_iff (w : List Char) :
    Matches wildCardDomainBody w ↔
      ∃ r, w = wildCardMarker.data ++ r ∧ r ≠ [] ∧ '\n' ∉ r := by
  unfold wildCardDomainBody
  rw [Matches.cat_iff]
  constructor
  · rintro ⟨u, v, rfl, hu, hv⟩
    rw [matches_catAll_lit] at hu
    subst hu
    obtain ⟨x, y, rfl, hx, hy⟩ := Matches.cat_iff.mp hv
    obtain ⟨hne, hnl⟩ := matches_plus_dot.mp hx
    refine ⟨x ++ y, rfl, by simp [hne], ?_⟩
    intro hmem
    rcases List.mem_append.mp hmem with h1 | h1
    · exact hnl h1
    · rcases Matches.alt_iff.mp hy with h2 | h2
      · rw [matches_lit.mp h2] at h1
        simp at h1
      · rw [Matches.empty_iff.mp h2] at h1
        cases h1
  · rintro ⟨r, rfl, hne, hnl⟩
    refine ⟨wildCardMarker.data, r, rfl, (matches_catAll_lit _ _).mpr rfl, ?_⟩
    have h1 : Matches (Regex.plus Regex.dot) r := matches_plus_dot.mpr ⟨hne, hnl⟩
    have h2 : Matches (Regex.opt (Regex.lit '.')) [] := Matches.altR Matches.empty
    simpa using Matches.cat h1 h2

/-- The wildcard pattern matches exactly the marker followed by a non-empty
text without a newline. -/
theorem wildCard_matchString_iff (s : String) :
    regexp.MatchString wildCardDomainRegex s = .ok true ↔
      ∃ r, s.data = wildCardMarker.data ++ r ∧ r ≠ [] ∧ '\n' ∉ r := by
  rw [matchString_wildCardDomainRegex, ← wildCardDomainBody_iff,
    ← Regexp.matchString_anchored]
  simp

/-! ## Trimming -/

theorem trimPrefix_append (m r : List Char) :
    strings.TrimPrefix ⟨m ++ r⟩ ⟨m⟩ = ⟨r⟩ := by
  have h : m.isPrefixOf (m ++ r) = true := by
    rw [ List.isPrefixOf_iff_prefix]
    exact List.prefix_append m r
  simp [strings.TrimPrefix, h]

theorem trimSuffix_dot_append (d : List Char) :
    strings.TrimSuffix ⟨d ++ ['.']⟩ "." = ⟨d⟩ := by
  have h : List.isSuffixOf ['.'] (d ++ ['.']) = true := by
    rw [ List.isSuffixOf_iff_suffix]
    exact List.suffix_append d ['.']
  have h2 : ".".data = ['.'] := rfl
  simp [strings.TrimSuffix, h2, h]

theorem trimSuffix_dot_of_last (d : String) (h : d.data.getLast? ≠ some '.') :
    strings.TrimSuffix d "." = d := by
  have h2 : ".".data = ['.'] := rfl
  have h3 : List.isSuffixOf ['.'] d.data = false := by
    rw [Bool.eq_false_iff]
    intro hs
    rw [ List.isSuffixOf_iff_suffix] at hs
    obtain ⟨t, ht⟩ := hs
    rw [← ht, List.getLast?_concat] at h
    exact h rfl
  simp [strings.TrimSuffix, h2, h3]

/-! ## The name under check -/

theorem domainUnderCheck_of_no_match (s : String)
    (h : regexp.MatchString wildCardDomainRegex s ≠ .ok true) : domainUnderCheck s = s := by
  unfold domainUnderCheck
  rw [matchString_wildCardDomainRegex] at h ⊢
  cases hb : Regexp.MatchString ⟨true, true, wildCardDomainBody⟩ s with
  | true => rw [hb] at h; exact absurd rfl h
  | false => rfl

theorem domainUnderCheck_of_match (s : String)
    (h : regexp.MatchString wildCardDomainRegex s = .ok true) :
    domainUnderCheck s
      = strings.TrimSuffix (strings.TrimPrefix s wildCardMarker) "." := by
  unfold domainUnderCheck
  rw [h]

/-- A text that does not start with the marker is checked as it is. -/
theorem domainUnderCheck_of_not_marker (s : String)
    (h : ¬ wildCardMarker.data <+: s.data) : domainUnderCheck s = s := by
  apply domainUnderCheck_of_no_match
  intro hm
  obtain ⟨r, hr, _, _⟩ := (wildCard_matchString_iff s).mp hm
  exact h ⟨r, hr.symm⟩

/-! ## The DNS-name pattern -/

/-- A word of the DNS-name pattern contains a dot. -/
theorem dnsNameBody_dot {w : List Char} (h : Matches dnsNameBody w) : '.' ∈ w := by
  obtain ⟨x, y, rfl, hx, _⟩ := Matches.cat_iff.mp h
  obtain ⟨l, r, rfl, hl, _⟩ := Matches.cat_iff.mp hx
  obtain ⟨a, b, rfl, _, hb⟩ := Matches.cat_iff.mp hl
  obtain ⟨g, e, rfl, _, he⟩ := Matches.cat_iff.mp hb
  rw [matches_lit.mp he]
  simp

/-- The words of the DNS-name pattern are made of lowercase letters, digits,
hyphens and dots. -/
theorem dnsNameBody_chars {w : List Char} (h : Matches dnsNameBody w) :
    ∀ c ∈ w, isLabelChar c = true ∨ c = '.' := by
  intro c hc
  have h1 := h.mem_alphabet (by decide) c hc
  rw [isLabelChar_iff]
  simp [dnsNameBody, dottedLabel, hyphenGroup, alnum, hyphen, Regex.plus, Regex.lit,
    Regex.alphabet, Regex.inRanges] at h1
  by_cases hd : c.toNat = 46
  · right; exact char_eq_of_toNat_eq hd
  · left
    omega

theorem isLabelChar_ascii {c : Char} (h : isLabelChar c = true ∨ c = '.') :
    c.toNat ≤ 127 := by
  rcases h with h | h
  · rw [isLabelChar_iff] at h; omega
  · subst h; decide

theorem baseDomain_matchString_iff (s : String) :
    regexp.MatchString baseDomainRegex s = .ok true ↔ Matches baseDomainBody s.data := by
  rw [matchString_baseDomainRegex, ← Regexp.matchString_anchored]
  simp

theorem dnsName_matchString_iff (s : String) :
    regexp.MatchString dnsNameRegex s = .ok true ↔ Matches dnsNameBody s.data := by
  rw [matchString_dnsNameRegex, ← Regexp.matchString_anchored]
  simp

/-- A name with a character other than a lowercase letter, a digit, a hyphen
or a dot satisfies neither grammar. -/
theorem no_grammar_of_char (s : String) (c : Char) (hc : c ∈ s.data)
    (hbad : ¬ (isLabelChar c = true ∨ c = '.')) :
    ¬ (BaseDomainGrammar s ∨ DNSNameGrammar s) := by
  rintro (h | h)
  · exact hbad (Or.inl (baseDomainBody_chars ((baseDomain_matchString_iff s).mp h.1) c hc))
  · exact hbad (dnsNameBody_chars ((dnsName_matchString_iff s).mp h.1) c hc)

/-- For a name that satisfies a grammar the byte length is the number of characters. -/
theorem len_of_baseDomain (s : String) (h : Matches baseDomainBody s.data) :
    len s = s.length :=
  len_of_ascii s fun c hc => isLabelChar_ascii (Or.inl (baseDomainBody_chars h c hc))

theorem len_of_dnsName (s : String) (h : Matches dnsNameBody s.data) :
    len s = s.length :=
  len_of_ascii s fun c hc => isLabelChar_ascii (dnsNameBody_chars h c hc)

/-! ## Verdicts of `ValidateDomainNameFormat` -/

theorem validateDomainNameFormat_ok_iff (s : String) :
    ValidateDomainNameFormat s = .ok (0, none) ↔
      BaseDomainGrammar (domainUnderCheck s) ∨ DNSNameGrammar (domainUnderCheck s) := by
  rcases validateDomainNameFormat_cases s with ⟨h1, h2⟩ | ⟨h1, h2⟩
  · exact ⟨fun _ => h2, fun _ => h1⟩
  · constructor
    · intro h
      rw [h1] at h
      simp [StatusBadRequest] at h
    · intro h; exact absurd h h2

theorem validateDomainNameFormat_reject_iff (s : String) :
    ValidateDomainNameFormat s = .ok (StatusBadRequest, some (dnsFormatMismatch s)) ↔
      ¬ (BaseDomainGrammar (domainUnderCheck s) ∨ DNSNameGrammar (domainUnderCheck s)) := by
  rcases validateDomainNameFormat_cases s with ⟨h1, h2⟩ | ⟨h1, h2⟩
  · constructor
    · intro h
      rw [h1] at h
      simp [StatusBadRequest] at h
    · intro h; exact absurd h2 h
  · exact ⟨fun _ => h2, fun _ => h1⟩

/-- The base-domain grammar in terms of the characters of the name. -/
theorem baseDomainGrammar_iff (s : String) :
    BaseDomainGrammar s ↔
      2 ≤ s.length ∧ s.length ≤ 62 ∧ (∀ c ∈ s.data, isLabelChar c = true) ∧
        (∀ c ∈ s.data.head?, isLowerAlnum c = true) ∧
        (∀ c ∈ s.data.getLast?, isLowerAlnum c = true) := by
  unfold BaseDomainGrammar
  rw [baseDomain_matchString_iff]
  constructor
  · rintro ⟨hm, h2, h62⟩
    rw [len_of_baseDomain s hm] at h2 h62
    obtain ⟨_, hc, hf, hl⟩ := (baseDomainBody_iff _).mp hm
    exact ⟨h2, h62, hc, hf, hl⟩
  · rintro ⟨h2, h62, hc, hf, hl⟩
    have hm : Matches baseDomainBody s.data := (baseDomainBody_iff _).mpr ⟨h2, hc, hf, hl⟩
    rw [len_of_baseDomain s hm]
    exact ⟨hm, h2, h62⟩

/-- A name without a dot does not satisfy the DNS-name grammar. -/
theorem not_dnsNameGrammar_of_no_dot (s : String) (h : '.' ∉ s.data) :
    ¬ DNSNameGrammar s := by
  intro hd
  exact h (dnsNameBody_dot ((dnsName_matchString_iff s).mp hd.1))

/-- A name that lacks a character of the marker does not start with the marker. -/
theorem not_marker_of_not_mem (s : String) (c : Char) (hc : c ∈ wildCardMarker.data)
    (h : c ∉ s.data) : ¬ wildCardMarker.data <+: s.data := by
  intro hp
  exact h (hp.subset hc)

/-- C6 (as stated) fails: the text `-a` is made of lowercase letters, digits and
hyphens and has length 2, yet it is rejected with status 400. -/
theorem validateDomainNameFormat_hyphen_first_rejected :
    (∀ c ∈ "-a".data, isLabelChar c = true) ∧ 2 ≤ "-a".length ∧ "-a".length ≤ 62 ∧
      ValidateDomainNameFormat "-a" = .ok (400, some (dnsFormatMismatch "-a")) := by
  set_option maxRecDepth 100000 in decide

/-- C6 (amended): every text of lowercase letters, digits and hyphens whose first
and last characters are lowercase letters or digits and whose length is between
2 and 62 is accepted: the validator returns `(0, nil)`. -/
theorem validateDomainNameFormat_accepts_label (s : String)
    (hchars : ∀ c ∈ s.data, isLabelChar c = true)
    (hfirst : ∀ c ∈ s.data.head?, isLowerAlnum c = true)
    (hlast : ∀ c ∈ s.data.getLast?, isLowerAlnum c = true)
    (h2 : 2 ≤ s.length) (h62 : s.length ≤ 62) :
    ValidateDomainNameFormat s = .ok (0, none) := by
  have hN : 'N' ∉ s.data := fun h => by
    have := hchars 'N' h
    revert this; decide
  rw [validateDomainNameFormat_ok_iff,
    domainUnderCheck_of_not_marker s (not_marker_of_not_mem s 'N' (by decide) hN)]
  exact Or.inl ((baseDomainGrammar_iff s).mpr ⟨h2, h62, hchars, hfirst, hlast⟩)

theorem validateDomainNameFormat_accepts_label_witness :
    ValidateDomainNameFormat "ab" = .ok (0, none) :=
  validateDomainNameFormat_accepts_label "ab" (by decide) (by decide) (by decide)
    (by decide) (by decide)

/-- C7: a text without a dot is accepted exactly when it has 2 to 62 characters,
all of them lowercase letters, digits or hyphens, the first and the last a
lowercase letter or digit; otherwise it is rejected with status 400.  So `ab`
is accepted, `a` is rejected, and so is a label of 63 characters. -/
theorem validateDomainNameFormat_no_dot (s : String) (hdot : '.' ∉ s.data) :
    (ValidateDomainNameFormat s = .ok (0, none) ↔
        2 ≤ s.length ∧ s.length ≤ 62 ∧ (∀ c ∈ s.data, isLabelChar c = true) ∧
          (∀ c ∈ s.data.head?, isLowerAlnum c = true) ∧
          (∀ c ∈ s.data.getLast?, isLowerAlnum c = true)) ∧
      (ValidateDomainNameFormat s ≠ .ok (0, none) →
        ValidateDomainNameFormat s = .ok (400, some (dnsFormatMismatch s))) ∧
      ValidateDomainNameFormat "ab" = .ok (0, none) ∧
      ValidateDomainNameFormat "a" = .ok (400, some (dnsFormatMismatch "a")) ∧
      ValidateDomainNameFormat ⟨List.replicate 63 'a'⟩
        = .ok (400, some (dnsFormatMismatch ⟨List.replicate 63 'a'⟩)) := by
  have hduc := domainUnderCheck_of_not_marker s (not_marker_of_not_mem s '.' (by decide) hdot)
  refine ⟨?_, ?_, ?_, ?_, ?_⟩
  · rw [validateDomainNameFormat_ok_iff, hduc, ← baseDomainGrammar_iff]
    exact ⟨fun h => h.resolve_right (not_dnsNameGrammar_of_no_dot s hdot), Or.inl⟩
  · intro h
    exact (validateDomainNameFormat_reject_iff s).mpr fun hg =>
      h ((validateDomainNameFormat_ok_iff s).mpr hg)
  · set_option maxRecDepth 100000 in decide
  · set_option maxRecDepth 100000 in decide
  · set_option maxRecDepth 100000 in decide

theorem validateDomainNameFormat_no_dot_witness :
    (ValidateDomainNameFormat "a-b" = .ok (0, none) ↔
        2 ≤ "a-b".length ∧ "a-b".length ≤ 62 ∧ (∀ c ∈ "a-b".data, isLabelChar c = true) ∧
          (∀ c ∈ "a-b".data.head?, isLowerAlnum c = true) ∧
          (∀ c ∈ "a-b".data.getLast?, isLowerAlnum c = true)) :=
  (validateDomainNameFormat_no_dot "a-b" (by decide)).1

/-! ## Dotted-decimal names -/

theorem classMem_digit (c : Char) :
    Regex.classMem false [(48, 57)] c = true ↔ c.isDigit = true := by
  have h : c.isDigit = (decide (48 ≤ c.toNat) && decide (c.toNat ≤ 57)) := rfl
  rw [h]
  simp [Regex.classMem, Regex.inRanges]

theorem matches_plus_digit {w : List Char} :
    Matches (Regex.plus digit) w ↔ w ≠ [] ∧ ∀ c ∈ w, c.isDigit = true := by
  unfold digit
  rw [Matches.plus_cls_iff]
  simp only [classMem_digit]

/-- Four non-empty groups of digits separated by dots are a word of the
dotted-decimal pattern. -/
theorem dottedDecimalBody_of_groups {a b c d : List Char}
    (ha : a ≠ [] ∧ ∀ x ∈ a, x.isDigit = true) (hb : b ≠ [] ∧ ∀ x ∈ b, x.isDigit = true)
    (hc : c ≠ [] ∧ ∀ x ∈ c, x.isDigit = true) (hd : d ≠ [] ∧ ∀ x ∈ d, x.isDigit = true) :
    Matches dottedDecimalBody (a ++ '.' :: (b ++ '.' :: (c ++ '.' :: d))) := by
  have grp : ∀ {g : List Char}, (g ≠ [] ∧ ∀ x ∈ g, x.isDigit = true) →
      Matches (Regex.cat (Regex.plus digit) (Regex.lit '.')) (g ++ ['.']) :=
    fun hg => Matches.cat (matches_plus_digit.mpr hg) (matches_lit.mpr rfl)
  have h3 := Matches.cat (grp hc) Matches.empty
  have h2 := Matches.cat (grp hb) h3
  have h1 := Matches.cat (grp ha) h2
  have h := Matches.cat h1 (matches_plus_digit.mpr hd)
  have e : (a ++ ['.'] ++ (b ++ ['.'] ++ (c ++ ['.'] ++ [])) ++ d)
      = a ++ '.' :: (b ++ '.' :: (c ++ '.' :: d)) := by simp
  rw [← e]
  exact h

/-- C8: a text made of four non-empty groups of decimal digits separated by
single dots is rejected with status 400 and a non-nil error, whether or not it
matches the DNS-name pattern. -/
theorem validateDomainNameFormat_rejects_ipv4_shape (a b c d : String)
    (ha : a ≠ "" ∧ ∀ x ∈ a.data, x.isDigit = true)
    (hb : b ≠ "" ∧ ∀ x ∈ b.data, x.isDigit = true)
    (hc : c ≠ "" ∧ ∀ x ∈ c.data, x.isDigit = true)
    (hd : d ≠ "" ∧ ∀ x ∈ d.data, x.isDigit = true) :
    ValidateDomainNameFormat (a ++ "." ++ b ++ "." ++ c ++ "." ++ d)
      = .ok (400, some (dnsFormatMismatch (a ++ "." ++ b ++ "." ++ c ++ "." ++ d))) := by
  have ne : ∀ {g : String}, g ≠ "" → g.data ≠ [] := fun hg h => hg (String.ext h)
  have hdata : (a ++ "." ++ b ++ "." ++ c ++ "." ++ d).data
      = a.data ++ '.' :: (b.data ++ '.' :: (c.data ++ '.' :: d.data)) := by
    simp [String.data_append]
  generalize a ++ "." ++ b ++ "." ++ c ++ "." ++ d = s at hdata ⊢
  have hN : 'N' ∉ s.data := by
    rw [hdata]
    intro h
    simp only [List.mem_append, List.mem_cons] at h
    rcases h with h | h | h | h | h | h | h
    · exact absurd (ha.2 _ h) (by decide)
    · exact absurd h (by decide)
    · exact absurd (hb.2 _ h) (by decide)
    · exact absurd h (by decide)
    · exact absurd (hc.2 _ h) (by decide)
    · exact absurd h (by decide)
    · exact absurd (hd.2 _ h) (by decide)
  have hdot : '.' ∈ s.data := by rw [hdata]; simp
  have hdec : isDottedDecimalDomain s = .ok true := by
    rw [isDottedDecimalDomain_eq]
    have hm : Regexp.MatchString ⟨false, false, dottedDecimalBody⟩ s = true := by
      rw [Regexp.matchString_iff]
      refine ⟨[], s.data, [], by simp, by simp, by simp, ?_⟩
      rw [hdata]
      exact dottedDecimalBody_of_groups ⟨ne ha.1, ha.2⟩ ⟨ne hb.1, hb.2⟩ ⟨ne hc.1, hc.2⟩
        ⟨ne hd.1, hd.2⟩
    rw [hm]
  show ValidateDomainNameFormat s = .ok (StatusBadRequest, some (dnsFormatMismatch s))
  rw [validateDomainNameFormat_reject_iff,
    domainUnderCheck_of_not_marker s (not_marker_of_not_mem s 'N' (by decide) hN)]
  rintro (h | h)
  · have := baseDomainBody_chars ((baseDomain_matchString_iff s).mp h.1) '.' hdot
    revert this; decide
  · have h2 := h.2.1
    rw [hdec] at h2
    simp at h2

theorem validateDomainNameFormat_rejects_ipv4_shape_witness :
    ValidateDomainNameFormat ("192" ++ "." ++ "168" ++ "." ++ "1" ++ "." ++ "1")
      = .ok (400,
          some (dnsFormatMismatch ("192" ++ "." ++ "168" ++ "." ++ "1" ++ "." ++ "1"))) :=
  validateDomainNameFormat_rejects_ipv4_shape "192" "168" "1" "1"
    ⟨by decide, by decide⟩ ⟨by decide, by decide⟩ ⟨by decide, by decide⟩
    ⟨by decide, by decide⟩

/-! ## Wrapped names -/

/-- A name that starts with the marker but is not matched by the wildcard
pattern is rejected, as the marker has an upper-case letter. -/
theorem not_ok_of_marker_unmatched (s : String) (r : List Char)
    (hs : s.data = wildCardMarker.data ++ r)
    (hm : regexp.MatchString wildCardDomainRegex s ≠ .ok true) :
    ValidateDomainNameFormat s ≠ .ok (0, none) := by
  rw [Ne, validateDomainNameFormat_ok_iff, domainUnderCheck_of_no_match s hm]
  refine no_grammar_of_char s 'N' ?_ (by decide)
  rw [hs]
  exact List.mem_append_left _ (by decide)

/-- A name with a newline, and the empty name, satisfy neither grammar. -/
theorem no_grammar_of_newline (d : String) (h : '\n' ∈ d.data) :
    ¬ (BaseDomainGrammar d ∨ DNSNameGrammar d) :=
  no_grammar_of_char d '\n' h (by decide)

theorem no_grammar_of_empty (d : String) (h : d.data = []) :
    ¬ (BaseDomainGrammar d ∨ DNSNameGrammar d) := by
  rintro (hg | hg)
  · have := ((baseDomainBody_iff _).mp ((baseDomain_matchString_iff d).mp hg.1)).1
    rw [h] at this
    simp at this
  · have := dnsNameBody_dot ((dnsName_matchString_iff d).mp hg.1)
    rw [h] at this
    cases this

/-- The verdict on a wrapped name `marker ++ r` whose unwrapped form is `d`:
`r` is `d` or `d` with one trailing dot. -/
theorem wrapped_ok_iff (s d : String) (r : List Char)
    (hs : s.data = wildCardMarker.data ++ r)
    (htrim : strings.TrimSuffix ⟨r⟩ "." = d)
    (hbad : r = [] ∨ '\n' ∈ r → ¬ (BaseDomainGrammar d ∨ DNSNameGrammar d)) :
    ValidateDomainNameFormat s = .ok (0, none) ↔ BaseDomainGrammar d ∨ DNSNameGrammar d := by
  by_cases hm : regexp.MatchString wildCardDomainRegex s = .ok true
  · rw [validateDomainNameFormat_ok_iff, domainUnderCheck_of_match s hm]
    have e : s = ⟨wildCardMarker.data ++ r⟩ := String.ext hs
    have e2 : wildCardMarker = ⟨wildCardMarker.data⟩ := rfl
    rw [e, e2, trimPrefix_append, htrim]
  · constructor
    · intro h
      exact absurd h (not_ok_of_marker_unmatched s r hs hm)
    · intro h
      exfalso
      refine hbad ?_ h
      by_contra hcon
      simp only [not_or] at hcon
      exact hm ((wildCard_matchString_iff s).mpr ⟨r, hs, hcon.1, hcon.2⟩)

/-- C9: the marker followed by `d` and a dot is accepted exactly when `d` itself
satisfies the base-domain grammar (base pattern, length 2 to 62) or the DNS-name
grammar (DNS-name pattern, no dotted-decimal match, length at most 255); the
same holds for the marker followed by `d` when `d` does not end with a dot.  The
length limits bear on `d`. -/
theorem validateDomainNameFormat_wrapped (d : String) :
    (ValidateDomainNameFormat ("validateNoWildcardDNS." ++ d ++ ".") = .ok (0, none) ↔
        BaseDomainGrammar d ∨ DNSNameGrammar d) ∧
      (d.data.getLast? ≠ some '.' →
        (ValidateDomainNameFormat ("validateNoWildcardDNS." ++ d) = .ok (0, none) ↔
          BaseDomainGrammar d ∨ DNSNameGrammar d)) := by
  have hd : (⟨d.data⟩ : String) = d := rfl
  constructor
  · refine wrapped_ok_iff _ d (d.data ++ ['.']) ?_ ?_ ?_
    · simp [String.data_append, wildCardMarker]
    · rw [trimSuffix_dot_append]
    · rintro (h | h)
      · simp at h
      · apply no_grammar_of_newline
        rcases List.mem_append.mp h with h1 | h1
        · exact h1
        · simp at h1
  · intro hlast
    refine wrapped_ok_iff _ d d.data ?_ ?_ ?_
    · simp [String.data_append, wildCardMarker]
    · rw [hd]; exact trimSuffix_dot_of_last d hlast
    · rintro (h | h)
      · exact no_grammar_of_empty d h
      · exact no_grammar_of_newline d h

theorem validateDomainNameFormat_wrapped_witness :
    (ValidateDomainNameFormat ("validateNoWildcardDNS." ++ "example.com") = .ok (0, none) ↔
      BaseDomainGrammar "example.com" ∨ DNSNameGrammar "example.com") :=
  (validateDomainNameFormat_wrapped "example.com").2 (by decide)

/-! ## Status hints -/

/-- C10: the validator returns either `(0, nil)` or `(400, error)`; the status is
0 exactly when the error is nil, every rejection carries 400, and 500 is never
returned (nor does the validator panic), since the constant patterns compile. -/
theorem validateDomainNameFormat_status (s : String) :
    (ValidateDomainNameFormat s = .ok (0, none) ∨
        ValidateDomainNameFormat s = .ok (400, some (dnsFormatMismatch s))) ∧
      (∀ status err, ValidateDomainNameFormat s = .ok (status, err) →
        (status = 0 ↔ err = none) ∧ (err ≠ none → status = 400) ∧
          status ≠ StatusInternalServerError) ∧
      (∃ re, regexp.Compile wildCardDomainRegex = .ok re) ∧
      (∃ re, regexp.Compile baseDomainRegex = .ok re) ∧
      (∃ re, regexp.Compile dnsNameRegex = .ok re) := by
  have h : ValidateDomainNameFormat s = .ok (0, none) ∨
      ValidateDomainNameFormat s = .ok (400, some (dnsFormatMismatch s)) := by
    rcases validateDomainNameFormat_cases s with ⟨h1, _⟩ | ⟨h1, _⟩
    · exact Or.inl h1
    · exact Or.inr h1
  refine ⟨h, ?_, ?_, ?_, ?_⟩
  · intro status err he
    rcases h with h | h
    · rw [h] at he
      simp only [Except.ok.injEq, Prod.mk.injEq] at he
      obtain ⟨rfl, rfl⟩ := he
      simp [StatusInternalServerError]
    · rw [h] at he
      simp only [Except.ok.injEq, Prod.mk.injEq] at he
      obtain ⟨rfl, rfl⟩ := he
      simp [StatusInternalServerError]
  · exact ⟨⟨true, true, wildCardDomainBody⟩, by simp [regexp.Compile, compile_wildCardDomainRegex]⟩
  · exact ⟨⟨true, true, baseDomainBody⟩, by simp [regexp.Compile, compile_baseDomainRegex]⟩
  · exact ⟨⟨true, true, dnsNameBody⟩, by simp [regexp.Compile, compile_dnsNameRegex]⟩

/-! ## Plain names -/

/-- The dotted-decimal check looks for a match anywhere in the name. -/
theorem isDottedDecimalDomain_iff (s : String) :
    isDottedDecimalDomain s = .ok true ↔
      ∃ p u q, s.data = p ++ (u ++ q) ∧ Matches dottedDecimalBody u := by
  rw [isDottedDecimalDomain_eq]
  have h := Regexp.matchString_iff ⟨false, false, dottedDecimalBody⟩ s
  simp only [Bool.false_eq_true, false_implies, true_and] at h
  rw [← h]
  simp

/-- C1 (failing input): `1.2.3.4.com` does not start with the wildcard marker,
matches the DNS-name pattern, has at most 255 characters and is not made of
exactly four dot-separated groups of digits, yet it is rejected with status 400,
because the dotted-decimal pattern matches inside it. -/
theorem validateDomainNameFormat_embedded_dotted_decimal :
    List.isPrefixOf "validateNoWildcardDNS.".data "1.2.3.4.com".data = false ∧
      regexp.MatchString dnsNameRegex "1.2.3.4.com" = .ok true ∧
      "1.2.3.4.com".length ≤ 255 ∧
      isDottedDecimalString "1.2.3.4.com" = false ∧
      isDottedDecimalDomain "1.2.3.4.com" = .ok true ∧
      ValidateDomainNameFormat "1.2.3.4.com"
        = .ok (400, some (dnsFormatMismatch "1.2.3.4.com")) := by
  refine ⟨?_, ?_, ?_, ?_, ?_, ?_⟩
  · decide
  · set_option maxRecDepth 100000 in decide
  · decide
  · decide
  · set_option maxRecDepth 100000 in decide
  · set_option maxRecDepth 100000 in decide

/-! ## Hostnames -/

/-- C2 (failing input): a name of 64 lowercase letters is rejected, although the
error message itself allows a length of 64. -/
theorem validateHostname_rejects_length_64 :
    (String.mk (List.replicate 64 'a')).length = 64 ∧
      (∀ c ∈ (String.mk (List.replicate 64 'a')).data, isLowerAlnum c = true) ∧
      ValidateHostname (String.mk (List.replicate 64 'a'))
        = some (hostnameFormatMismatch (String.mk (List.replicate 64 'a'))) ∧
      ValidateHostname (String.mk (List.replicate 63 'a')) = none := by
  refine ⟨?_, ?_, ?_, ?_⟩
  · decide
  · set_option maxRecDepth 100000 in decide
  · set_option maxRecDepth 100000 in decide
  · set_option maxRecDepth 100000 in decide

/-! ## Installer arguments -/

/-- C3 (failing input): the value `<` is accepted although `<` is none of the
documented characters: in the class, `+-=` is the range from `+` to `=`. -/
theorem validateInstallerArgs_accepts_less_than :
    "<".data.head? ≠ some '-' ∧ isDocumentedValueChar '<' = false ∧
      Regex.inRanges installerValueRanges '<' = true ∧
      ValidateInstallerArgs ["<"] = .ok none := by
  refine ⟨?_, ?_, ?_, ?_⟩
  · decide
  · decide
  · decide
  · set_option maxRecDepth 100000 in decide

theorem validateInstallerArgs_eq (args : List String) :
    ValidateInstallerArgs args
      = .ok (ValidateInstallerArgs.loop ⟨true, false, flagBody⟩
          ⟨true, true, installerValuesBody⟩ args) := by
  unfold ValidateInstallerArgs regexp.MustCompile
  rw [compile_flagPattern, compile_installerArgsValuesRegex]

/-- The flag pattern matches the texts that start with a hyphen. -/
theorem flagPattern_matchString_iff (t : String) :
    Regexp.MatchString ⟨true, false, flagBody⟩ t = true ↔ t.data.head? = some '-' := by
  rw [Regexp.matchString_iff]
  constructor
  · rintro ⟨p, u, q, hs, hp, _, hu⟩
    have hp2 : p = [] := hp rfl
    subst hp2
    obtain ⟨x, y, rfl, hx, _⟩ := Matches.cat_iff.mp hu
    obtain ⟨a, b, rfl, ha, _⟩ := Matches.cat_iff.mp hx
    rw [matches_lit.mp ha] at hs
    rw [hs]
    rfl
  · intro h
    cases hd : t.data with
    | nil => rw [hd] at h; cases h
    | cons c rest =>
        rw [hd] at h
        simp only [List.head?_cons, Option.some.injEq] at h
        subst h
        refine ⟨[], ['-'], rest, rfl, fun _ => rfl, by simp, ?_⟩
        have h1 : Matches (Regex.plus (Regex.lit '-')) ['-'] :=
          Matches.cat (matches_lit.mpr rfl) Matches.starNil
        exact Matches.cat h1 Matches.starNil

theorem containsString_iff (xs : List String) (x : String) :
    ContainsString xs x = true ↔ x ∈ xs := by
  unfold ContainsString
  rw [List.any_eq_true]
  constructor
  · rintro ⟨y, hy, he⟩
    rw [decide_eq_true_eq] at he
    exact he ▸ hy
  · intro h
    exact ⟨x, h, by simp⟩

/-- C4: a token that starts with a hyphen is accepted exactly when it is one of
the nine allowed flags; every other such token fails with the unexpected-flag
error, whatever its characters, as does `--image-url=x`. -/
theorem validateInstallerArgs_flag (t : String) (h : t.data.head? = some '-') :
    (ValidateInstallerArgs [t] = .ok none ↔
        t ∈ ["--append-karg", "--delete-karg", "-n", "--copy-network", "--network-dir",
          "--save-partlabel", "--save-partindex", "--image-url", "--image-file"]) ∧
      (ValidateInstallerArgs [t] ≠ .ok none →
        ValidateInstallerArgs [t] = .ok (some (unexpectedFlagError t))) ∧
      ValidateInstallerArgs ["--image-url=x"]
        = .ok (some (unexpectedFlagError "--image-url=x")) := by
  have hm := (flagPattern_matchString_iff t).mpr h
  have e : ValidateInstallerArgs [t]
      = .ok (if ContainsString allowedFlags t = true then none
          else some (unexpectedFlagError t)) := by
    rw [validateInstallerArgs_eq]
    simp only [ValidateInstallerArgs.loop, hm, if_true]
    cases ContainsString allowedFlags t <;> simp
  refine ⟨?_, ?_, ?_⟩
  · rw [e]
    have hc : ContainsString allowedFlags t = true ↔ t ∈ allowedFlags :=
      containsString_iff allowedFlags t
    show _ ↔ t ∈ allowedFlags
    rw [← hc]
    cases ContainsString allowedFlags t <;> simp
  · rw [e]
    cases ContainsString allowedFlags t <;> simp
  · set_option maxRecDepth 100000 in decide

theorem validateInstallerArgs_flag_witness :
    "--bad-flag".data.head? = some '-' ∧
      ValidateInstallerArgs ["--bad-flag"]
        = .ok (some (unexpectedFlagError "--bad-flag")) :=
  ⟨by decide, (validateInstallerArgs_flag "--bad-flag" (by decide)).2.1
    (by set_option maxRecDepth 100000 in decide)⟩

theorem loop_eq_none_iff (argsRe valuesRe : Regexp) (args : List String) :
    ValidateInstallerArgs.loop argsRe valuesRe args = none ↔
      ∀ t ∈ args, ValidateInstallerArgs.loop argsRe valuesRe [t] = none := by
  induction args with
  | nil => simp [ValidateInstallerArgs.loop]
  | cons a rest ih =>
      simp only [List.mem_cons, forall_eq_or_imp, ← ih]
      simp only [ValidateInstallerArgs.loop]
      cases argsRe.MatchString a <;> cases valuesRe.MatchString a <;>
        cases ContainsString allowedFlags a <;> simp

/-- C5: a sequence of tokens is accepted exactly when each of its tokens is
accepted on its own; the empty sequence is accepted, and so are a flag without
a value and a value without a flag. -/
theorem validateInstallerArgs_all (args : List String) :
    (ValidateInstallerArgs args = .ok none ↔
        ∀ t ∈ args, ValidateInstallerArgs [t] = .ok none) ∧
      ValidateInstallerArgs [] = .ok none ∧
      ValidateInstallerArgs ["--image-url", "http://x/y.iso"] = .ok none ∧
      ValidateInstallerArgs ["--image-url"] = .ok none ∧
      ValidateInstallerArgs ["http://x/y.iso"] = .ok none ∧
      ValidateInstallerArgs ["--bad-flag"] = .ok (some (unexpectedFlagError "--bad-flag")) ∧
      ValidateInstallerArgs ["value with spaces"]
        = .ok (some (unexpectedCharsError "value with spaces")) := by
  refine ⟨?_, ?_, ?_, ?_, ?_, ?_, ?_⟩
  · simp only [validateInstallerArgs_eq, Except.ok.injEq]
    exact loop_eq_none_iff _ _ args
  · rw [validateInstallerArgs_eq]; rfl
  · set_option maxRecDepth 100000 in decide
  · set_option maxRecDepth 100000 in decide
  · set_option maxRecDepth 100000 in decide
  · set_option maxRecDepth 100000 in decide
  · set_option maxRecDepth 100000 in decide

/-! ## What the three validators accept -/

/-- A name that does not start with the wildcard marker is accepted exactly
when it satisfies the base-domain grammar or the DNS-name grammar, where the
dotted-decimal check of the latter is the one `isDottedDecimalDomain` performs;
it is rejected with status 400 otherwise. -/
theorem validateDomainNameFormat_plain (s : String)
    (h : ¬ "validateNoWildcardDNS.".data <+: s.data) :
    (ValidateDomainNameFormat s = .ok (0, none) ↔ BaseDomainGrammar s ∨ DNSNameGrammar s) ∧
      (ValidateDomainNameFormat s = .ok (400, some (dnsFormatMismatch s)) ↔
        ¬ (BaseDomainGrammar s ∨ DNSNameGrammar s)) := by
  have hd := domainUnderCheck_of_not_marker s h
  constructor
  · rw [validateDomainNameFormat_ok_iff, hd]
  · have := validateDomainNameFormat_reject_iff s
    rw [hd] at this
    exact this

theorem Matches.upTo_cls_iff {neg : Bool} {ranges : List (Nat × Nat)} (k : Nat)
    {w : List Char} :
    Matches (Regex.upTo (Regex.cls neg ranges) k) w ↔
      w.length ≤ k ∧ ∀ c ∈ w, Regex.classMem neg ranges c = true := by
  induction k generalizing w with
  | zero =>
      simp only [Regex.upTo, Matches.empty_iff, Nat.le_zero, List.length_eq_zero]
      constructor
      · rintro rfl; exact ⟨rfl, fun c hc => by cases hc⟩
      · exact fun h => h.1
  | succ k ih =>
      simp only [Regex.upTo, Regex.opt, Matches.alt_iff, Matches.cat_iff, Matches.cls_iff,
        Matches.empty_iff, ih]
      constructor
      · rintro (⟨u, v, rfl, ⟨c, rfl, hc⟩, hv, hall⟩ | rfl)
        · refine ⟨by simp; omega, ?_⟩
          intro d hd
          rcases List.mem_append.mp hd with h1 | h1
          · rw [List.mem_singleton.mp h1]; exact hc
          · exact hall d h1
        · exact ⟨by simp, fun c hc => by cases hc⟩
      · rintro ⟨hlen, hall⟩
        cases w with
        | nil => exact Or.inr rfl
        | cons c t =>
            left
            refine ⟨[c], t, rfl, ⟨c, rfl, hall c (List.mem_cons_self _ _)⟩, ?_, ?_⟩
            · simp only [List.length_cons] at hlen; omega
            · exact fun d hd => hall d (List.mem_cons_of_mem _ hd)

theorem isHostnameChar_iff (c : Char) :
    isHostnameChar c = true ↔
      Regex.classMem false [(97, 122), (48, 57), (45, 45), (46, 46)] c = true := by
  unfold isHostnameChar
  rw [Bool.or_eq_true, isLabelChar_iff, beq_iff_eq]
  have h : c = '.' ↔ c.toNat = 46 :=
    ⟨fun h => by rw [h]; rfl, fun h => char_eq_of_toNat_eq h⟩
  rw [h]
  simp [Regex.classMem, Regex.inRanges]
  omega

theorem isHostnameChar_of_alnum {c : Char} (h : isLowerAlnum c = true) :
    isHostnameChar c = true := by
  simp [isHostnameChar, isLabelChar, h]

/-- The words of the hostname pattern: 2 to 63 characters, all of them lowercase
letters, digits, hyphens or dots, the first and the last a letter or digit. -/
theorem hostnameBody_iff (w : List Char) :
    Matches hostnameBody w ↔
      2 ≤ w.length ∧ w.length ≤ 63 ∧ (∀ c ∈ w, isHostnameChar c = true) ∧
        (∀ c ∈ w.head?, isLowerAlnum c = true) ∧
        (∀ c ∈ w.getLast?, isLowerAlnum c = true) := by
  have e : hostnameBody
      = Regex.cat alnum (Regex.cat (Regex.upTo hostnameInner 61) alnum) := rfl
  rw [e]
  unfold hostnameInner
  simp only [Matches.cat_iff, matches_alnum, Matches.upTo_cls_iff, ← isHostnameChar_iff]
  constructor
  · rintro ⟨_, _, rfl, ⟨a, rfl, ha⟩, m, _, rfl, ⟨hlen, hm⟩, b, rfl, hb⟩
    refine ⟨by simp, by simp; omega, ?_, ?_, ?_⟩
    · intro c hc
      simp only [List.singleton_append, List.mem_cons, List.mem_append,
        List.mem_singleton, List.not_mem_nil, or_false] at hc
      rcases hc with rfl | hc | rfl
      · exact isHostnameChar_of_alnum ha
      · exact hm c hc
      · exact isHostnameChar_of_alnum hb
    · intro c hc
      simp only [List.singleton_append, List.head?_cons, Option.mem_def,
        Option.some.injEq] at hc
      rw [← hc]; exact ha
    · intro c hc
      rw [← List.append_assoc, List.getLast?_concat] at hc
      simp only [Option.mem_def, Option.some.injEq] at hc
      rw [← hc]; exact hb
  · rintro ⟨h2, h63, hall, hhead, hlast⟩
    cases w with
    | nil => simp at h2
    | cons a t =>
        have hne : t ≠ [] := by
          intro ht; subst ht; simp at h2
        obtain ⟨m, b, rfl⟩ : ∃ m b, t = m ++ [b] :=
          ⟨t.dropLast, t.getLast hne, (List.dropLast_append_getLast hne).symm⟩
        refine ⟨[a], m ++ [b], rfl, ⟨a, rfl, hhead a (by simp)⟩, m, [b], rfl, ⟨?_, ?_⟩,
          b, rfl, ?_⟩
        · simp only [List.length_cons, List.length_append, List.length_singleton,
            List.length_nil] at h63
          omega
        · intro c hc
          exact hall c (List.mem_cons_of_mem _ (List.mem_append_left _ hc))
        · apply hlast b
          have : a :: (m ++ [b]) = (a :: m) ++ [b] := rfl
          rw [this, List.getLast?_concat]
          rfl

/-- `ValidateHostname` accepts exactly the names of 2 to 63 characters, all of
them lowercase letters, digits, hyphens or dots, that start and end with a
lowercase letter or digit; every other name gets the format error. -/
theorem validateHostname_iff (name : String) :
    (ValidateHostname name = none ↔
        2 ≤ name.length ∧ name.length ≤ 63 ∧ (∀ c ∈ name.data, isHostnameChar c = true) ∧
          (∀ c ∈ name.data.head?, isLowerAlnum c = true) ∧
          (∀ c ∈ name.data.getLast?, isLowerAlnum c = true)) ∧
      (ValidateHostname name ≠ none →
        ValidateHostname name = some (hostnameFormatMismatch name)) := by
  have e : ValidateHostname name
      = if Regexp.MatchString ⟨true, true, hostnameBody⟩ name = true then none
        else some (hostnameFormatMismatch name) := by
    unfold ValidateHostname
    rw [matchString_hostnameRegex]
    cases Regexp.MatchString ⟨true, true, hostnameBody⟩ name <;> rfl
  have hm := Regexp.matchString_anchored hostnameBody name
  rw [hostnameBody_iff] at hm
  rw [e]
  constructor
  · refine Iff.trans ?_ hm
    cases Regexp.MatchString ⟨true, true, hostnameBody⟩ name <;> simp
  · cases Regexp.MatchString ⟨true, true, hostnameBody⟩ name <;> simp

/-- The class of the installer-value pattern holds the documented characters
and, through the range `+-=`, the character `<`. -/
theorem inRanges_installerValueRanges (c : Char) :
    Regex.inRanges installerValueRanges c = true ↔
      isDocumentedValueChar c = true ∨ c = '<' := by
  by_cases hc : c.toNat < 128
  · have key : ∀ n : Fin 128,
        Regex.inRanges installerValueRanges (Char.ofNat n.val)
          = (isDocumentedValueChar (Char.ofNat n.val) || Char.ofNat n.val == '<') := by
      decide
    have h := key ⟨c.toNat, hc⟩
    simp only [Char.ofNat_toNat] at h
    rw [h, Bool.or_eq_true, beq_iff_eq]
  · have h1 : Regex.inRanges installerValueRanges c = false := by
      rw [Bool.eq_false_iff]
      intro h
      simp [Regex.inRanges, installerValueRanges] at h
      omega
    have h2 : isDocumentedValueChar c = false := by
      have ea : c.isAlpha = ((decide (65 ≤ c.toNat) && decide (c.toNat ≤ 90))
          || (decide (97 ≤ c.toNat) && decide (c.toNat ≤ 122))) := rfl
      have ed : c.isDigit = (decide (48 ≤ c.toNat) && decide (c.toNat ≤ 57)) := rfl
      have ep : documentedPunctuation.contains c = false := by
        rw [Bool.eq_false_iff]
        intro h
        have h : c ∈ documentedPunctuation := by simpa using h
        have hall : ∀ d ∈ documentedPunctuation, d.toNat < 128 := by decide
        exact hc (hall c h)
      unfold isDocumentedValueChar
      rw [ea, ed, ep]
      simp
      omega
    rw [h1, h2]
    simp
    rintro rfl
    exact hc (by decide)

/-- A token that does not start with a hyphen is accepted exactly when it is
not empty and each of its characters is a documented character or `<`; it
fails with the unexpected-chars error otherwise. -/
theorem validateInstallerArgs_value (t : String) (h : t.data.head? ≠ some '-') :
    (ValidateInstallerArgs [t] = .ok none ↔
        t.data ≠ [] ∧ ∀ c ∈ t.data, isDocumentedValueChar c = true ∨ c = '<') ∧
      (ValidateInstallerArgs [t] ≠ .ok none →
        ValidateInstallerArgs [t] = .ok (some (unexpectedCharsError t))) := by
  have hf : Regexp.MatchString ⟨true, false, flagBody⟩ t = false := by
    rw [Bool.eq_false_iff]
    exact fun hm => h ((flagPattern_matchString_iff t).mp hm)
  have e : ValidateInstallerArgs [t]
      = .ok (if Regexp.MatchString ⟨true, true, installerValuesBody⟩ t = true then none
          else some (unexpectedCharsError t)) := by
    rw [validateInstallerArgs_eq]
    simp only [ValidateInstallerArgs.loop, hf]
    cases Regexp.MatchString ⟨true, true, installerValuesBody⟩ t <;> simp
  have hm2 : Matches installerValuesBody t.data ↔
      t.data ≠ [] ∧ ∀ c ∈ t.data, isDocumentedValueChar c = true ∨ c = '<' := by
    unfold installerValuesBody
    rw [Matches.plus_cls_iff]
    simp only [Regex.classMem, Bool.false_eq_true, if_false, inRanges_installerValueRanges]
  have hm := (Regexp.matchString_anchored installerValuesBody t).trans hm2
  rw [e]
  constructor
  · refine Iff.trans ?_ hm
    cases Regexp.MatchString ⟨true, true, installerValuesBody⟩ t <;> simp
  · cases Regexp.MatchString ⟨true, true, installerValuesBody⟩ t <;> simp

/-! ## Tags -/

theorem compile_tagRegex : Syntax.compile tagRegex = some ⟨true, true, tagBody⟩ := by decide

theorem isValidTag_eq (t : String) :
    IsValidTag t = .ok (Regexp.MatchString ⟨true, true, tagBody⟩ t) := by
  unfold IsValidTag regexp.MustCompile
  rw [compile_tagRegex]

theorem isWordChar_iff (c : Char) :
    isWordChar c = true ↔
      (48 ≤ c.toNat ∧ c.toNat ≤ 57) ∨ (65 ≤ c.toNat ∧ c.toNat ≤ 90) ∨ c.toNat = 95 ∨
        (97 ≤ c.toNat ∧ c.toNat ≤ 122) := by
  have ea : c.isAlpha = ((decide (65 ≤ c.toNat) && decide (c.toNat ≤ 90))
      || (decide (97 ≤ c.toNat) && decide (c.toNat ≤ 122))) := rfl
  have ed : c.isDigit = (decide (48 ≤ c.toNat) && decide (c.toNat ≤ 57)) := rfl
  have eu : c = '_' ↔ c.toNat = 95 :=
    ⟨fun h => by rw [h]; rfl, fun h => char_eq_of_toNat_eq h⟩
  unfold isWordChar
  rw [Bool.or_eq_true, Bool.or_eq_true, beq_iff_eq, eu, ea, ed]
  simp
  omega

theorem classMem_word (c : Char) :
    Regex.classMem false Regex.wordRanges c = true ↔ isWordChar c = true := by
  rw [isWordChar_iff]
  simp [Regex.classMem, Regex.inRanges, Regex.wordRanges]
  omega

theorem matches_plus_word {w : List Char} :
    Matches (Regex.plus word) w ↔ w ≠ [] ∧ ∀ c ∈ w, isWordChar c = true := by
  unfold word
  rw [Matches.plus_cls_iff]
  simp only [classMem_word]

theorem space_not_word : isWordChar ' ' = false := by decide

theorem ne_space_of_word {c : Char} (h : isWordChar c = true) : c ≠ ' ' := by
  rintro rfl
  rw [space_not_word] at h
  cases h

/-- A text of word characters has no two adjacent spaces. -/
theorem noDoubleSpace_of_words {w : List Char} (h : ∀ c ∈ w, isWordChar c = true) :
    NoDoubleSpace w := by
  unfold NoDoubleSpace
  induction w with
  | nil => exact List.chain'_nil
  | cons c t ih =>
      rw [List.chain'_cons']
      refine ⟨?_, ih fun d hd => h d (List.mem_cons_of_mem _ hd)⟩
      intro d _ hcd
      exact ne_space_of_word (h c (List.mem_cons_self _ _)) hcd.1

theorem spacedWord_iff {u : List Char} :
    Matches spacedWord u ↔ ∃ ws, u = ' ' :: ws ∧ ws ≠ [] ∧ ∀ c ∈ ws, isWordChar c = true := by
  unfold spacedWord
  rw [Matches.cat_iff]
  constructor
  · rintro ⟨x, y, rfl, hx, hy⟩
    rw [matches_lit.mp hx]
    exact ⟨y, rfl, matches_plus_word.mp hy⟩
  · rintro ⟨ws, rfl, hws⟩
    exact ⟨[' '], ws, rfl, matches_lit.mpr rfl, matches_plus_word.mpr hws⟩

/-- A space in front of word characters is a spaced run when a spaced run follows. -/
theorem spacedRun_append {ws v : List Char} (hne : ws ≠ [])
    (hws : ∀ c ∈ ws, isWordChar c = true) (hv : SpacedRun v) :
    SpacedRun ((' ' :: ws) ++ v) := by
  obtain ⟨hv1, hv2, hv3, hv4⟩ := hv
  have hlast_ws : ∀ c ∈ (' ' :: ws).getLast?, isWordChar c = true := by
    intro c hc
    have e : ' ' :: ws = [' '] ++ ws := rfl
    rw [e, List.getLast?_append_of_ne_nil _ hne] at hc
    exact hws c (List.mem_of_mem_getLast? hc)
  refine ⟨?_, ?_, ?_, ?_⟩
  · intro c hc
    rcases List.mem_append.mp hc with h1 | h1
    · rcases List.mem_cons.mp h1 with h2 | h2
      · exact Or.inr h2
      · exact Or.inl (hws c h2)
    · exact hv1 c h1
  · unfold NoDoubleSpace
    rw [List.chain'_append]
    refine ⟨?_, hv2, ?_⟩
    · rw [List.chain'_cons']
      refine ⟨?_, noDoubleSpace_of_words hws⟩
      intro d hd hcd
      exact ne_space_of_word (hws d (List.mem_of_mem_head? hd)) hcd.2
    · intro x hx y _ hxy
      exact ne_space_of_word (hlast_ws x hx) hxy.1
  · intro c hc
    simpa using hc.symm
  · intro c hc
    by_cases hvn : v = []
    · subst hvn
      rw [List.append_nil] at hc
      exact hlast_ws c hc
    · rw [List.getLast?_append_of_ne_nil _ hvn] at hc
      exact hv4 c hc

theorem star_spacedWord_run {y : List Char} (h : Matches (Regex.star spacedWord) y) :
    SpacedRun y := by
  refine Matches.star_induction (P := SpacedRun) ?_ ?_ h
  · exact ⟨fun c hc => (by cases hc), List.chain'_nil, fun c hc => (by cases hc),
      fun c hc => (by cases hc)⟩
  · intro u v hu _ hv
    obtain ⟨ws, rfl, hne, hws⟩ := spacedWord_iff.mp hu
    exact spacedRun_append hne hws hv

/-- A text of word characters and single spaces that does not end with a space
is a run of spaced words when it starts with a space, and word characters
followed by such a run when it starts with a word character. -/
theorem tag_of_shape (w : List Char) (hall : ∀ c ∈ w, isWordChar c = true ∨ c = ' ')
    (hchain : NoDoubleSpace w) (hlast : ∀ c ∈ w.getLast?, c ≠ ' ') :
    ((∀ c ∈ w.head?, c = ' ') → Matches (Regex.star spacedWord) w) ∧
      ((∀ c ∈ w.head?, isWordChar c = true) → w ≠ [] → Matches tagBody w) := by
  induction w with
  | nil => exact ⟨fun _ => Matches.starNil, fun _ h => absurd rfl h⟩
  | cons c t ih =>
      unfold NoDoubleSpace at hchain
      rw [List.chain'_cons'] at hchain
      have hlast_t : ∀ d ∈ t.getLast?, d ≠ ' ' := by
        intro d hd
        apply hlast d
        cases t with
        | nil => cases hd
        | cons e t2 => rw [List.getLast?_cons_cons]; exact hd
      obtain ⟨ih1, ih2⟩ := ih (fun d hd => hall d (List.mem_cons_of_mem _ hd)) hchain.2 hlast_t
      have hhead_t : (∀ d ∈ t.head?, d = ' ') ∨ (t ≠ [] ∧ ∀ d ∈ t.head?, isWordChar d = true) := by
        cases t with
        | nil => exact Or.inl fun d hd => by cases hd
        | cons e t2 =>
            rcases hall e (List.mem_cons_of_mem _ (List.mem_cons_self _ _)) with he | he
            · right
              refine ⟨by simp, ?_⟩
              intro d hd
              simp only [List.head?_cons, Option.mem_def, Option.some.injEq] at hd
              rw [← hd]; exact he
            · left
              intro d hd
              simp only [List.head?_cons, Option.mem_def, Option.some.injEq] at hd
              rw [← hd]; exact he
      constructor
      · intro hsp
        have hc : c = ' ' := hsp c (by simp)
        subst hc
        rcases hhead_t with hs | ⟨hne, hw⟩
        · exfalso
          cases t with
          | nil => exact hlast ' ' (by simp) rfl
          | cons e t2 =>
              have he : e = ' ' := hs e (by simp)
              exact hchain.1 e (by simp) ⟨rfl, he⟩
        · obtain ⟨x, y, hxy, hx, hy⟩ := Matches.cat_iff.mp (ih2 hw hne)
          rw [hxy]
          have hsw : Matches spacedWord (' ' :: x) :=
            spacedWord_iff.mpr ⟨x, rfl, matches_plus_word.mp hx⟩
          exact Matches.starCons hsw hy
      · intro hwd _
        have hc : isWordChar c = true := hwd c (by simp)
        rcases hhead_t with hs | ⟨hne, hw⟩
        · have h1 : Matches (Regex.plus word) [c] :=
            matches_plus_word.mpr ⟨by simp, by simpa using hc⟩
          exact Matches.cat h1 (ih1 hs)
        · obtain ⟨x, y, hxy, hx, hy⟩ := Matches.cat_iff.mp (ih2 hw hne)
          rw [hxy]
          obtain ⟨_, hxw⟩ := matches_plus_word.mp hx
          have h1 : Matches (Regex.plus word) (c :: x) := by
            refine matches_plus_word.mpr ⟨by simp, ?_⟩
            intro d hd
            rcases List.mem_cons.mp hd with h2 | h2
            · rw [h2]; exact hc
            · exact hxw d h2
          exact Matches.cat h1 hy

/-- The words of the tag pattern: non-empty texts of word characters and
spaces that neither start nor end with a space and have no two adjacent spaces. -/
theorem tagBody_iff (w : List Char) :
    Matches tagBody w ↔
      w ≠ [] ∧ (∀ c ∈ w, isWordChar c = true ∨ c = ' ') ∧ (∀ c ∈ w.head?, c ≠ ' ') ∧
        (∀ c ∈ w.getLast?, c ≠ ' ') ∧ NoDoubleSpace w := by
  constructor
  · intro h
    obtain ⟨x, y, rfl, hx, hy⟩ := Matches.cat_iff.mp h
    obtain ⟨hne, hxw⟩ := matches_plus_word.mp hx
    obtain ⟨hy1, hy2, _, hy4⟩ := star_spacedWord_run hy
    refine ⟨by simp [hne], ?_, ?_, ?_, ?_⟩
    · intro c hc
      rcases List.mem_append.mp hc with h1 | h1
      · exact Or.inl (hxw c h1)
      · exact hy1 c h1
    · intro c hc
      rw [List.head?_append_of_ne_nil _ hne] at hc
      exact ne_space_of_word (hxw c (List.mem_of_mem_head? hc))
    · intro c hc
      by_cases hyn : y = []
      · subst hyn
        rw [List.append_nil] at hc
        exact ne_space_of_word (hxw c (List.mem_of_mem_getLast? hc))
      · rw [List.getLast?_append_of_ne_nil _ hyn] at hc
        exact ne_space_of_word (hy4 c hc)
    · unfold NoDoubleSpace
      rw [List.chain'_append]
      refine ⟨noDoubleSpace_of_words hxw, hy2, ?_⟩
      intro a ha b _ hab
      exact ne_space_of_word (hxw a (List.mem_of_mem_getLast? ha)) hab.1
  · rintro ⟨hne, hall, hhead, hlast, hchain⟩
    refine (tag_of_shape w hall hchain hlast).2 ?_ hne
    intro c hc
    rcases hall c (List.mem_of_mem_head? hc) with h1 | h1
    · exact h1
    · exact absurd h1 (hhead c hc)

/-- C13: `IsValidTag` is true exactly for the non-empty texts of word characters
(ASCII letters, digits, underscore) and spaces that neither start nor end with
a space and have no two adjacent spaces; it is false for every other text. -/
theorem isValidTag_iff (t : String) :
    (IsValidTag t = .ok true ↔
        t ≠ "" ∧ (∀ c ∈ t.data, isWordChar c = true ∨ c = ' ') ∧
          (∀ c ∈ t.data.head?, c ≠ ' ') ∧ (∀ c ∈ t.data.getLast?, c ≠ ' ') ∧
          NoDoubleSpace t.data) ∧
      (IsValidTag t = .ok true ∨ IsValidTag t = .ok false) := by
  rw [isValidTag_eq]
  have hm := (Regexp.matchString_anchored tagBody t).trans (tagBody_iff t.data)
  have hne : t ≠ "" ↔ t.data ≠ [] :=
    ⟨fun h hd => h (String.ext hd), fun h ht => h (by rw [ht])⟩
  rw [hne]
  constructor
  · refine Iff.trans ?_ hm
    simp
  · cases Regexp.MatchString ⟨true, true, tagBody⟩ t <;> simp

/-! ## Lists of strings -/

theorem allStrings_pure (vs : List String) (g : String → Bool) :
    AllStrings vs (fun v => .ok (g v)) = .ok (vs.all g) := by
  induction vs with
  | nil => rfl
  | cons v rest ih =>
      simp only [AllStrings, List.all_cons]
      cases g v
      · rfl
      · simpa using ih

theorem isValidTag_fun :
    IsValidTag = fun t => .ok (Regexp.MatchString ⟨true, true, tagBody⟩ t) :=
  funext isValidTag_eq

/-- C14: `ValidateTags` returns nil exactly when the text is empty or every
element of its split on commas satisfies `IsValidTag`, and the format error
otherwise; so a non-empty list with an empty element is rejected, while the
empty text is accepted. -/
theorem validateTags_iff (tags : String) :
    (ValidateTags tags = .ok none ↔
        tags = "" ∨ ∀ e ∈ strings.Split tags ",", IsValidTag e = .ok true) ∧
      (ValidateTags tags ≠ .ok none → ValidateTags tags = .ok (some (invalidTagsError tags))) ∧
      (tags ≠ "" → "" ∈ strings.Split tags "," →
        ValidateTags tags = .ok (some (invalidTagsError tags))) ∧
      ValidateTags "" = .ok none ∧
      ValidateTags ",a" = .ok (some (invalidTagsError ",a")) ∧
      ValidateTags "a," = .ok (some (invalidTagsError "a,")) ∧
      ValidateTags "a,,b" = .ok (some (invalidTagsError "a,,b")) ∧
      ValidateTags "tag1,tag 2,tag_3" = .ok none ∧
      ValidateTags "tag!,x" = .ok (some (invalidTagsError "tag!,x")) := by
  have e : ValidateTags tags
      = if tags = "" then .ok none
        else if (strings.Split tags ",").all (Regexp.MatchString ⟨true, true, tagBody⟩) = true
          then .ok none
        else .ok (some (invalidTagsError tags)) := by
    unfold ValidateTags
    rw [isValidTag_fun, allStrings_pure]
    by_cases h : tags = ""
    · simp [h]
    · simp only [h, if_false]
      cases (strings.Split tags ",").all (Regexp.MatchString ⟨true, true, tagBody⟩) <;> rfl
  have hall : (strings.Split tags ",").all (Regexp.MatchString ⟨true, true, tagBody⟩) = true ↔
      ∀ e ∈ strings.Split tags ",", IsValidTag e = .ok true := by
    rw [List.all_eq_true]
    simp only [isValidTag_eq, Except.ok.injEq]
  refine ⟨?_, ?_, ?_, ?_, ?_, ?_, ?_, ?_, ?_⟩
  · rw [e, ← hall]
    by_cases h : tags = ""
    · simp [h]
    · simp only [h, if_false, false_or]
      cases (strings.Split tags ",").all (Regexp.MatchString ⟨true, true, tagBody⟩) <;> simp
  · rw [e]
    by_cases h : tags = ""
    · simp [h]
    · simp only [h, if_false]
      cases (strings.Split tags ",").all (Regexp.MatchString ⟨true, true, tagBody⟩) <;> simp
  · intro h hmem
    rw [e]
    simp only [h, if_false]
    have hbad : ¬ (strings.Split tags ",").all (Regexp.MatchString ⟨true, true, tagBody⟩) = true := by
      rw [hall]
      intro hv
      have := hv "" hmem
      revert this
      decide
    simp [hbad]
  · decide
  · set_option maxRecDepth 100000 in decide
  · set_option maxRecDepth 100000 in decide
  · set_option maxRecDepth 100000 in decide
  · set_option maxRecDepth 100000 in decide
  · set_option maxRecDepth 100000 in decide

/-! ## NTP sources -/

theorem validateNTPSource_iff (lib : Library) (e : String) :
    ValidateNTPSource lib e = true ↔
      (lib.ParseIP e).isSome = true ∨ ValidateHostname e = none := by
  unfold ValidateNTPSource
  cases lib.ParseIP e <;> cases ValidateHostname e <;> simp

/-- C15: the list check is true exactly when every element of the split on
commas satisfies `ValidateNTPSource` (and false otherwise), and
`ValidateNTPSource` is true exactly when the element parses as an IP address or
`ValidateHostname` returns nil; one invalid element makes the list invalid. -/
theorem validateAdditionalNTPSource_iff (lib : Library) (list e : String) :
    (ValidateAdditionalNTPSource lib list = .ok true ↔
        ∀ x ∈ strings.Split list ",", ValidateNTPSource lib x = true) ∧
      (ValidateAdditionalNTPSource lib list ≠ .ok true →
        ValidateAdditionalNTPSource lib list = .ok false) ∧
      (ValidateNTPSource lib e = true ↔
        (lib.ParseIP e).isSome = true ∨ ValidateHostname e = none) ∧
      (e ∈ strings.Split list "," → ValidateNTPSource lib e = false →
        ValidateAdditionalNTPSource lib list = .ok false) ∧
      ((lib.ParseIP "203.0.113.5").isSome = true →
        ValidateNTPSource lib "203.0.113.5" = true) ∧
      ValidateNTPSource lib "time.example.com" = true ∧
      (lib.ParseIP "not a host!" = none →
        ValidateAdditionalNTPSource lib "a.com,not a host!" = .ok false) := by
  have hlist : ValidateAdditionalNTPSource lib list
      = .ok ((strings.Split list ",").all (ValidateNTPSource lib)) := by
    unfold ValidateAdditionalNTPSource
    rw [allStrings_pure]
  refine ⟨?_, ?_, validateNTPSource_iff lib e, ?_, ?_, ?_, ?_⟩
  · rw [hlist, Except.ok.injEq, List.all_eq_true]
  · rw [hlist]
    cases (strings.Split list ",").all (ValidateNTPSource lib) <;> simp
  · intro hmem hbad
    rw [hlist, Except.ok.injEq, Bool.eq_false_iff, Ne, List.all_eq_true]
    intro h
    rw [h e hmem] at hbad
    cases hbad
  · intro h
    exact (validateNTPSource_iff lib _).mpr (Or.inl h)
  · refine (validateNTPSource_iff lib _).mpr (Or.inr ?_)
    set_option maxRecDepth 100000 in decide
  · intro h
    unfold ValidateAdditionalNTPSource
    rw [allStrings_pure, Except.ok.injEq, Bool.eq_false_iff, Ne, List.all_eq_true]
    intro hall
    have hmem : "not a host!" ∈ strings.Split "a.com,not a host!" "," := by decide
    have h2 := (validateNTPSource_iff lib _).mp (hall _ hmem)
    rw [h] at h2
    rcases h2 with h2 | h2
    · cases h2
    · revert h2
      set_option maxRecDepth 100000 in decide

/-! ## URLs -/

/-- C17: `ValidateHTTPFormat` returns nil exactly when the text parses as a URL
whose scheme is `http` or `https`; a parse failure and any other or missing
scheme, as `ftp`, yield an error. -/
theorem validateHTTPFormat_iff (lib : Library) (theurl : String) :
    (ValidateHTTPFormat lib theurl = none ↔
        ∃ u, lib.Parse theurl = .ok u ∧ (u.Scheme = "http" ∨ u.Scheme = "https")) ∧
      (∀ err, lib.Parse theurl = .error err →
        ValidateHTTPFormat lib theurl = some (urlFormatError theurl err)) ∧
      (∀ u, lib.Parse theurl = .ok u → u.Scheme ≠ "http" → u.Scheme ≠ "https" →
        ValidateHTTPFormat lib theurl = some (urlSchemeError theurl)) ∧
      (lib.Parse "ftp://x.com" = .ok ⟨"ftp"⟩ →
        ValidateHTTPFormat lib "ftp://x.com" = some (urlSchemeError "ftp://x.com")) ∧
      (lib.Parse "https://x.com" = .ok ⟨"https"⟩ →
        ValidateHTTPFormat lib "https://x.com" = none) := by
  unfold ValidateHTTPFormat
  refine ⟨?_, ?_, ?_, ?_, ?_⟩
  · cases lib.Parse theurl with
    | error err => simp
    | ok u =>
        simp
        tauto
  · intro err h
    rw [h]
  · intro u h h1 h2
    rw [h]
    simp [h1, h2]
  · intro h
    rw [h]
    decide
  · intro h
    rw [h]
    decide

/-- C16: `ValidateHTTPProxyFormat` returns nil exactly when the text is a
well-formed URL that parses with the scheme `http`; a well-formed URL with the
scheme `https` gets the https message, one with any other or no scheme the
scheme message, and the two messages differ. -/
theorem validateHTTPProxyFormat_iff (lib : Library) (proxyURL : String) :
    (ValidateHTTPProxyFormat lib proxyURL = none ↔
        lib.IsURL proxyURL = true ∧ ∃ u, lib.Parse proxyURL = .ok u ∧ u.Scheme = "http") ∧
      (∀ u, lib.IsURL proxyURL = true → lib.Parse proxyURL = .ok u → u.Scheme = "https" →
        ValidateHTTPProxyFormat lib proxyURL = some (proxyHTTPSError proxyURL)) ∧
      (∀ u, lib.IsURL proxyURL = true → lib.Parse proxyURL = .ok u → u.Scheme ≠ "https" →
        u.Scheme ≠ "http" →
        ValidateHTTPProxyFormat lib proxyURL = some (proxySchemeError proxyURL)) ∧
      (lib.IsURL proxyURL = false ∨ (∃ err, lib.Parse proxyURL = .error err) →
        ValidateHTTPProxyFormat lib proxyURL = some (proxyFormatError proxyURL)) ∧
      proxyHTTPSError proxyURL ≠ proxySchemeError proxyURL ∧
      (lib.IsURL "https://proxy:3128" = true →
        lib.Parse "https://proxy:3128" = .ok ⟨"https"⟩ →
        ValidateHTTPProxyFormat lib "https://proxy:3128"
          = some (proxyHTTPSError "https://proxy:3128")) ∧
      (lib.IsURL "http://proxy:3128" = true →
        lib.Parse "http://proxy:3128" = .ok ⟨"http"⟩ →
        ValidateHTTPProxyFormat lib "http://proxy:3128" = none) := by
  unfold ValidateHTTPProxyFormat
  refine ⟨?_, ?_, ?_, ?_, ?_, ?_, ?_⟩
  · cases lib.IsURL proxyURL with
    | false => simp
    | true =>
        cases lib.Parse proxyURL with
        | error err => simp
        | ok u =>
            by_cases h1 : u.Scheme = "https"
            · simp [h1]
            · by_cases h2 : u.Scheme = "http"
              · simp [h2]
              · simp [h1, h2]
  · intro u h1 h2 h3
    rw [h1, h2]
    simp [h3]
  · intro u h1 h2 h3 h4
    rw [h1, h2]
    simp [h3, h4]
  · rintro (h | ⟨err, h⟩)
    · rw [h]; rfl
    · rw [h]
      cases lib.IsURL proxyURL <;> rfl
  · intro h
    unfold proxyHTTPSError proxySchemeError at h
    simp only [GoError.errorf.injEq] at h
    have h2 := congrArg String.data h
    simp only [String.data_append] at h2
    have h3 := congrArg (fun l => l[27]?) h2
    revert h3
    simp
  · intro h1 h2
    rw [h1, h2]
    decide
  · intro h1 h2
    rw [h1, h2]
    decide

/-! ## No-proxy lists -/

theorem validateNoProxyEntry_iff (lib : Library) (entry : String) :
    validateNoProxyEntry lib entry = none ↔ ValidNoProxyEntry lib entry := by
  unfold validateNoProxyEntry ValidNoProxyEntry
  simp only
  cases lib.IsIP (strings.TrimPrefix entry ".") <;>
    cases lib.IsCIDR (strings.TrimPrefix entry ".") <;>
    cases lib.IsDNSName (strings.TrimPrefix entry ".") <;> simp

theorem lookup_cons_none (s e : String) (tracker : List (String × String)) :
    List.lookup e ((s, "") :: tracker) = none ↔ e ≠ s ∧ List.lookup e tracker = none := by
  rw [List.lookup_cons]
  by_cases h : e = s
  · simp [h]
  · have hb : (e == s) = false := by simpa using h
    simp [hb, h]

/-- The loop accepts the entries that are valid, pairwise distinct and not yet
in the map. -/
theorem noProxy_loop_iff (lib : Library) (entries : List String)
    (tracker : List (String × String)) :
    ValidateNoProxyFormat.loop lib entries tracker = none ↔
      (∀ e ∈ entries, ValidNoProxyEntry lib e) ∧ entries.Nodup ∧
        ∀ e ∈ entries, List.lookup e tracker = none := by
  induction entries generalizing tracker with
  | nil => simp [ValidateNoProxyFormat.loop]
  | cons s rest ih =>
      simp only [ValidateNoProxyFormat.loop, List.mem_cons, forall_eq_or_imp,
        List.nodup_cons]
      cases hl : List.lookup s tracker with
      | some v => simp
      | none =>
          simp only [Option.isSome_none, Bool.false_eq_true, if_false, true_and]
          cases hv : validateNoProxyEntry lib s with
          | some err =>
              have : ¬ ValidNoProxyEntry lib s := by
                rw [← validateNoProxyEntry_iff, hv]; simp
              simp [this]
          | none =>
              have hvalid : ValidNoProxyEntry lib s := (validateNoProxyEntry_iff lib s).mp hv
              simp only [ih, lookup_cons_none, hvalid, true_and]
              constructor
              · rintro ⟨h1, h2, h3⟩
                exact ⟨h1, ⟨fun hmem => (h3 s hmem).1 rfl, h2⟩, fun e he => (h3 e he).2⟩
              · rintro ⟨h1, ⟨h2, h3⟩, h4⟩
                exact ⟨h1, h3, fun e he => ⟨fun hes => h2 (hes ▸ he), h4 e he⟩⟩

theorem validateNoProxyFormat_plain_iff (lib : Library) (noProxy : String) :
    ValidateNoProxyFormat lib noProxy = none ↔
      noProxy = "*" ∨
        ((strings.Split noProxy ",").Nodup ∧
          ∀ e ∈ strings.Split noProxy ",", ValidNoProxyEntry lib e) := by
  unfold ValidateNoProxyFormat
  by_cases h : noProxy = "*"
  · simp [h]
  · simp only [h, if_false, false_or, noProxy_loop_iff]
    constructor
    · rintro ⟨h1, h2, _⟩
      exact ⟨h2, h1⟩
    · rintro ⟨h1, h2⟩
      exact ⟨h2, h1, fun _ _ => rfl⟩

/-- C11: `ValidateNoProxyFormat` returns nil exactly when the text is `*`, or
its comma-separated entries are pairwise distinct and each of them, a leading
dot removed, is an IP address, a CIDR block or a DNS name. -/
theorem validateNoProxyFormat_iff (lib : Library) (noProxy : String) :
    (ValidateNoProxyFormat lib noProxy = none ↔
      noProxy = "*" ∨
        ((strings.Split noProxy ",").Nodup ∧
          ∀ e ∈ strings.Split noProxy ",",
            lib.IsIP (strings.TrimPrefix e ".") = true ∨
              lib.IsCIDR (strings.TrimPrefix e ".") = true ∨
              lib.IsDNSName (strings.TrimPrefix e ".") = true)) ∧
      ValidateNoProxyFormat lib "*" = none := by
  exact ⟨validateNoProxyFormat_plain_iff lib noProxy, rfl⟩

/-- With valid entries the loop can only fail with the duplicate error. -/
theorem noProxy_loop_duplicate (lib : Library) (entries : List String)
    (tracker : List (String × String)) (hvalid : ∀ e ∈ entries, ValidNoProxyEntry lib e)
    (h : ValidateNoProxyFormat.loop lib entries tracker ≠ none) :
    ∃ e ∈ entries,
      ValidateNoProxyFormat.loop lib entries tracker = some (duplicateNoProxyError e) := by
  induction entries generalizing tracker with
  | nil => exact absurd rfl h
  | cons s rest ih =>
      simp only [ValidateNoProxyFormat.loop] at h ⊢
      cases hl : List.lookup s tracker with
      | some v => exact ⟨s, List.mem_cons_self _ _, by simp⟩
      | none =>
          have hv := (validateNoProxyEntry_iff lib s).mpr (hvalid s (List.mem_cons_self _ _))
          rw [hl, hv] at h
          simp only [Option.isSome_none, Bool.false_eq_true, if_false] at h
          obtain ⟨e, he, hres⟩ := ih _ (fun e he => hvalid e (List.mem_cons_of_mem _ he)) h
          refine ⟨e, List.mem_cons_of_mem _ he, ?_⟩
          rw [hv]
          simpa using hres

theorem split_go_comma_free (l cur : List Char) (h : ',' ∉ l) :
    strings.Split.go [','] l 0 cur = [cur.reverse ++ l] := by
  induction l generalizing cur with
  | nil => simp [strings.Split.go]
  | cons c t ih =>
      have hc : ¬ ',' = c := fun e => h (e ▸ List.mem_cons_self _ _)
      have ht : ',' ∉ t := fun e => h (List.mem_cons_of_mem _ e)
      simp [strings.Split.go, List.isPrefixOf, hc, ih _ ht]

theorem split_go_comma_append (l r cur : List Char) (h : ',' ∉ l) :
    strings.Split.go [','] (l ++ ',' :: r) 0 cur
      = (cur.reverse ++ l) :: strings.Split.go [','] r 0 [] := by
  induction l generalizing cur with
  | nil => simp [strings.Split.go, List.isPrefixOf]
  | cons c t ih =>
      have hc : ¬ ',' = c := fun e => h (e ▸ List.mem_cons_self _ _)
      have ht : ',' ∉ t := fun e => h (List.mem_cons_of_mem _ e)
      simp [strings.Split.go, List.isPrefixOf, hc, ih _ ht]

/-- The split of two comma-free entries joined by a comma. -/
theorem split_pair (a b : String) (ha : ',' ∉ a.data) (hb : ',' ∉ b.data) :
    strings.Split (a ++ "," ++ b) "," = [a, b] := by
  have hs : ",".data = [','] := rfl
  have hd : (a ++ "," ++ b).data = a.data ++ ',' :: b.data := by
    simp [String.data_append]
  unfold strings.Split
  rw [hs, hd, split_go_comma_append _ _ _ ha, split_go_comma_free _ _ hb]
  simp

/-- C12: a list with the same raw entry at two positions gets an error, the
duplicate error when all its entries are valid.  Entries are compared as they
are written: a valid entry `e` and `.e` in one list are both accepted. -/
theorem validateNoProxyFormat_duplicate (lib : Library) (noProxy : String)
    (hdup : ¬ (strings.Split noProxy ",").Nodup) :
    ValidateNoProxyFormat lib noProxy ≠ none ∧
      ((∀ e ∈ strings.Split noProxy ",", ValidNoProxyEntry lib e) →
        ∃ e ∈ strings.Split noProxy ",",
          ValidateNoProxyFormat lib noProxy = some (duplicateNoProxyError e)) ∧
      (∀ e : String, ',' ∉ e.data → ValidNoProxyEntry lib e →
        ValidNoProxyEntry lib ("." ++ e) →
        ValidateNoProxyFormat lib (e ++ "," ++ ("." ++ e)) = none) ∧
      (lib.IsDNSName "a.com" = true →
        ValidateNoProxyFormat lib "a.com,a.com" = some (duplicateNoProxyError "a.com") ∧
          ValidateNoProxyFormat lib "a.com,.a.com" = none) := by
  have hstar : noProxy ≠ "*" := by
    rintro rfl
    exact hdup (by decide)
  have hne : ValidateNoProxyFormat lib noProxy ≠ none := by
    intro h
    rcases (validateNoProxyFormat_plain_iff lib noProxy).mp h with h1 | h1
    · exact hstar h1
    · exact hdup h1.1
  have hpair : ∀ e : String, ',' ∉ e.data → ValidNoProxyEntry lib e →
      ValidNoProxyEntry lib ("." ++ e) →
      ValidateNoProxyFormat lib (e ++ "," ++ ("." ++ e)) = none := by
    intro e hc h1 h2
    rw [validateNoProxyFormat_plain_iff]
    right
    have hc2 : ',' ∉ ("." ++ e).data := by
      simp only [String.data_append, List.mem_append, not_or]
      exact ⟨by decide, hc⟩
    rw [split_pair e ("." ++ e) hc hc2]
    refine ⟨?_, ?_⟩
    · have hlen : e ≠ "." ++ e := by
        intro he
        have := congrArg String.length he
        simp [String.length_append] at this
        exact absurd this (by decide)
      simp [hlen]
    · intro x hx
      simp only [List.mem_cons, List.mem_singleton, List.not_mem_nil, or_false] at hx
      rcases hx with rfl | rfl
      · exact h1
      · exact h2
  refine ⟨hne, ?_, hpair, ?_⟩
  · intro hvalid
    unfold ValidateNoProxyFormat at hne ⊢
    simp only [hstar, if_false] at hne ⊢
    exact noProxy_loop_duplicate lib _ [] hvalid hne
  · intro hdns
    have hv : ValidNoProxyEntry lib "a.com" := by
      right; right
      have e : strings.TrimPrefix "a.com" "." = "a.com" := by decide
      rw [e]; exact hdns
    have hv2 : ValidNoProxyEntry lib ("." ++ "a.com") := by
      right; right
      have e : strings.TrimPrefix ("." ++ "a.com") "." = "a.com" := by decide
      rw [e]; exact hdns
    constructor
    · have hs : strings.Split "a.com,a.com" "," = ["a.com", "a.com"] := by decide
      have hval := (validateNoProxyEntry_iff lib "a.com").mpr hv
      have hstar2 : ("a.com,a.com" : String) ≠ "*" := by decide
      unfold ValidateNoProxyFormat
      simp only [hstar2, if_false, hs, ValidateNoProxyFormat.loop]
      simp [List.lookup, hval]
    · exact hpair "a.com" (by decide) hv hv2

theorem validateNoProxyFormat_duplicate_witness :
    ¬ (strings.Split "a.com,a.com" ",").Nodup ∧
      ValidateNoProxyFormat sampleLibrary "a.com,a.com" ≠ none :=
  ⟨by decide, (validateNoProxyFormat_duplicate sampleLibrary "a.com,a.com" (by decide)).1⟩

/-! ## Order of the installer arguments -/

/-- C18: the verdict on a sequence of tokens does not depend on their order. -/
theorem validateInstallerArgs_perm (args args2 : List String) (h : args.Perm args2) :
    ValidateInstallerArgs args = .ok none ↔ ValidateInstallerArgs args2 = .ok none := by
  simp only [validateInstallerArgs_eq, Except.ok.injEq, loop_eq_none_iff _ _ args,
    loop_eq_none_iff _ _ args2]
  constructor
  · intro hall t ht
    exact hall t (h.mem_iff.mpr ht)
  · intro hall t ht
    exact hall t (h.mem_iff.mp ht)

theorem validateInstallerArgs_perm_witness :
    (ValidateInstallerArgs ["--image-url", "x", "--bad"] = .ok none ↔
      ValidateInstallerArgs ["x", "--image-url", "--bad"] = .ok none) :=
  validateInstallerArgs_perm ["--image-url", "x", "--bad"] ["x", "--image-url", "--bad"]
    (List.Perm.swap _ _ _)

/-! ## Accepted hostnames -/

/-- C19: an accepted hostname has at most 64 characters, starts and ends with a
lowercase letter or digit and is made of lowercase letters, digits, hyphens and
dots; so a name of 65 or more characters, a name whose first or last character
is no lowercase letter or digit, and a name with an uppercase letter are
rejected. -/
theorem validateHostname_accepted (name : String) :
    (ValidateHostname name = none →
        name.length ≤ 64 ∧ (∃ c, name.data.head? = some c ∧ isLowerAlnum c = true) ∧
          (∃ c, name.data.getLast? = some c ∧ isLowerAlnum c = true) ∧
          ∀ c ∈ name.data, isHostnameChar c = true) ∧
      (65 ≤ name.length → ValidateHostname name = some (hostnameFormatMismatch name)) ∧
      (∀ c, name.data.head? = some c ∨ name.data.getLast? = some c →
        isLowerAlnum c = false →
        ValidateHostname name = some (hostnameFormatMismatch name)) ∧
      (∀ c ∈ name.data, c.isUpper = true →
        ValidateHostname name = some (hostnameFormatMismatch name)) ∧
      ValidateHostname "my-host.example" = none ∧
      ValidateHostname "-bad.example" = some (hostnameFormatMismatch "-bad.example") := by
  obtain ⟨hiff, hrej⟩ := validateHostname_iff name
  have reject : ValidateHostname name ≠ none →
      ValidateHostname name = some (hostnameFormatMismatch name) := hrej
  refine ⟨?_, ?_, ?_, ?_, ?_, ?_⟩
  · intro h
    obtain ⟨h2, h63, hall, hhead, hlast⟩ := hiff.mp h
    have hne : name.data ≠ [] := by
      intro hn
      have : name.length = 0 := by
        show name.data.length = 0
        rw [hn]; rfl
      omega
    refine ⟨by omega, ?_, ?_, hall⟩
    · cases hd : name.data.head? with
      | none => exact absurd (List.head?_eq_none_iff.mp hd) hne
      | some c => exact ⟨c, rfl, hhead c hd⟩
    · cases hd : name.data.getLast? with
      | none => exact absurd (List.getLast?_eq_none_iff.mp hd) hne
      | some c => exact ⟨c, rfl, hlast c hd⟩
  · intro h65
    apply reject
    intro h
    have := (hiff.mp h).2.1
    omega
  · intro c hc hbad
    apply reject
    intro h
    obtain ⟨_, _, _, hhead, hlast⟩ := hiff.mp h
    rcases hc with hc | hc
    · rw [hhead c hc] at hbad; cases hbad
    · rw [hlast c hc] at hbad; cases hbad
  · intro c hc hup
    apply reject
    intro h
    have hh := (hiff.mp h).2.2.1 c hc
    have eu : c.isUpper = (decide (65 ≤ c.toNat) && decide (c.toNat ≤ 90)) := rfl
    rw [eu] at hup
    simp only [Bool.and_eq_true, decide_eq_true_eq] at hup
    rw [isHostnameChar_iff] at hh
    simp [Regex.classMem, Regex.inRanges] at hh
    omega
  · set_option maxRecDepth 100000 in decide
  · set_option maxRecDepth 100000 in decide

/-! ## Hyphens of a base domain -/

/-- C20 (as stated) fails: `a--b` has no dot and two adjacent hyphens, and it is
accepted. -/
theorem validateDomainNameFormat_double_hyphen_accepted :
    '.' ∉ "a--b".data ∧ "a--b".data = ['a'] ++ ['-', '-'] ++ ['b'] ∧
      ValidateDomainNameFormat "a--b" = .ok (0, none) := by
  refine ⟨?_, ?_, ?_⟩
  · decide
  · decide
  · set_option maxRecDepth 100000 in decide

/-- C20 (amended): an accepted text without a dot has its hyphens in the
interior only: it is made of lowercase letters, digits and hyphens, and it
neither starts nor ends with a hyphen. -/
theorem validateDomainNameFormat_hyphens_interior (s : String) (hdot : '.' ∉ s.data)
    (hok : ValidateDomainNameFormat s = .ok (0, none)) :
    s.data.head? ≠ some '-' ∧ s.data.getLast? ≠ some '-' ∧
      ∀ c ∈ s.data, isLabelChar c = true := by
  have hduc := domainUnderCheck_of_not_marker s (not_marker_of_not_mem s '.' (by decide) hdot)
  rw [validateDomainNameFormat_ok_iff, hduc] at hok
  have hb := hok.resolve_right (not_dnsNameGrammar_of_no_dot s hdot)
  obtain ⟨_, _, hall, hhead, hlast⟩ := (baseDomainGrammar_iff s).mp hb
  refine ⟨?_, ?_, hall⟩
  · intro h
    have := hhead '-' h
    revert this; decide
  · intro h
    have := hlast '-' h
    revert this; decide

theorem validateDomainNameFormat_hyphens_interior_witness :
    "a--b".data.head? ≠ some '-' ∧ "a--b".data.getLast? ≠ some '-' ∧
      ∀ c ∈ "a--b".data, isLabelChar c = true :=
  validateDomainNameFormat_hyphens_interior "a--b" (by decide)
    (by set_option maxRecDepth 100000 in decide)

/-! ## The last label -/

theorem lastLabel_of_no_dot (w : List Char) (h : '.' ∉ w) : lastLabel w = w := by
  cases w with
  | nil => rfl
  | cons c cs =>
      have h1 : '.' ∉ cs := fun e => h (List.mem_cons_of_mem _ e)
      have h2 : ¬ c = '.' := fun e => h (e ▸ List.mem_cons_self _ _)
      simp [lastLabel, h1, h2]

/-- The last label of a text is the last label of what follows any of its dots. -/
theorem lastLabel_append_dot (p r : List Char) :
    lastLabel (p ++ '.' :: r) = lastLabel r := by
  induction p with
  | nil =>
      by_cases h : '.' ∈ r
      · simp [lastLabel, h]
      · simp [lastLabel, h, lastLabel_of_no_dot r h]
  | cons c t ih =>
      have h : '.' ∈ t ++ '.' :: r := by simp
      rw [List.cons_append, lastLabel]
      simp only [h, if_true]
      exact ih

theorem dottedLabel_ends_with_dot {l : List Char} (h : Matches dottedLabel l) :
    ∃ l2, l = l2 ++ ['.'] := by
  obtain ⟨a, b, rfl, _, hb⟩ := Matches.cat_iff.mp h
  obtain ⟨g, e, rfl, _, he⟩ := Matches.cat_iff.mp hb
  rw [matches_lit.mp he]
  exact ⟨a ++ g, by simp⟩

theorem star_dottedLabel_ends_with_dot {v : List Char}
    (h : Matches (Regex.star dottedLabel) v) : v = [] ∨ ∃ v2, v = v2 ++ ['.'] := by
  refine Matches.star_induction (P := fun v => v = [] ∨ ∃ v2, v = v2 ++ ['.']) ?_ ?_ h
  · exact Or.inl rfl
  · intro x y hx _ hy
    right
    rcases hy with rfl | ⟨y2, rfl⟩
    · obtain ⟨x2, rfl⟩ := dottedLabel_ends_with_dot hx
      exact ⟨x2, by simp⟩
    · exact ⟨x ++ y2, by simp⟩

/-- A word of the final part has at least two characters and no dot. -/
theorem finalLabel_shape {b : List Char} (h : Matches finalLabel b) :
    2 ≤ b.length ∧ '.' ∉ b := by
  constructor
  · obtain ⟨x, y, rfl, hx, hy⟩ := Matches.cat_iff.mp h
    have h1 := (matches_plus_alnum.mp hx).1
    have h2 := (plus_hyphenGroup_last hy).1
    have l1 : 1 ≤ x.length := List.length_pos.mpr h1
    have l2 : 1 ≤ y.length := List.length_pos.mpr h2
    rw [List.length_append]
    omega
  · intro hdot
    have h1 := h.mem_alphabet (by decide) '.' hdot
    revert h1
    decide

/-- A word of the DNS-name pattern ends with a dot followed by a last label of
at least two characters. -/
theorem dnsNameBody_lastLabel {w : List Char} (h : Matches dnsNameBody w) :
    2 ≤ (lastLabel w).length := by
  have e : dnsNameBody = Regex.cat (Regex.plus dottedLabel) finalLabel := rfl
  rw [e] at h
  obtain ⟨a, b, rfl, ha, hb⟩ := Matches.cat_iff.mp h
  obtain ⟨hlen, hdot⟩ := finalLabel_shape hb
  have hends : ∃ a2, a = a2 ++ ['.'] := by
    obtain ⟨l, v, rfl, hl, hv⟩ := Matches.cat_iff.mp ha
    rcases star_dottedLabel_ends_with_dot hv with rfl | ⟨v2, rfl⟩
    · obtain ⟨l2, rfl⟩ := dottedLabel_ends_with_dot hl
      exact ⟨l2, by simp⟩
    · exact ⟨l ++ v2, by simp⟩
  obtain ⟨a2, rfl⟩ := hends
  have e2 : a2 ++ ['.'] ++ b = a2 ++ '.' :: b := by simp
  rw [e2, lastLabel_append_dot, lastLabel_of_no_dot b hdot]
  exact hlen

/-- A name whose last label has exactly one character satisfies neither grammar. -/
theorem no_grammar_of_short_label (d : String) (h : (lastLabel d.data).length = 1) :
    ¬ (BaseDomainGrammar d ∨ DNSNameGrammar d) := by
  rintro (hg | hg)
  · have hm := (baseDomain_matchString_iff d).mp hg.1
    have hdot : '.' ∉ d.data := by
      intro hd
      have := baseDomainBody_chars hm '.' hd
      revert this; decide
    rw [lastLabel_of_no_dot _ hdot] at h
    have := ((baseDomainBody_iff _).mp hm).1
    omega
  · have := dnsNameBody_lastLabel ((dnsName_matchString_iff d).mp hg.1)
    omega

/-- C21: an input whose last dot-separated label has exactly one character is
rejected with status 400; so `example.c` and `a.b` are rejected, while `a.bc`,
whose first label has one character, is accepted. -/
theorem validateDomainNameFormat_short_last_label (s : String)
    (h : (lastLabel s.data).length = 1) :
    ValidateDomainNameFormat s = .ok (400, some (dnsFormatMismatch s)) ∧
      ValidateDomainNameFormat "example.c" = .ok (400, some (dnsFormatMismatch "example.c")) ∧
      ValidateDomainNameFormat "a.b" = .ok (400, some (dnsFormatMismatch "a.b")) ∧
      ValidateDomainNameFormat "a.bc" = .ok (0, none) := by
  refine ⟨?_, ?_, ?_, ?_⟩
  · show ValidateDomainNameFormat s = .ok (StatusBadRequest, some (dnsFormatMismatch s))
    rw [validateDomainNameFormat_reject_iff]
    by_cases hm : regexp.MatchString wildCardDomainRegex s = .ok true
    · obtain ⟨r, hr, _, _⟩ := (wildCard_matchString_iff s).mp hm
      have em : wildCardMarker.data = "validateNoWildcardDNS".data ++ ['.'] := by decide
      have hlab : (lastLabel r).length = 1 := by
        rw [hr, em, List.append_assoc, List.singleton_append, lastLabel_append_dot] at h
        exact h
      have hlast : r.getLast? ≠ some '.' := by
        intro hl
        obtain ⟨r2, rfl⟩ : ∃ r2, r = r2 ++ ['.'] := by
          have hne : r ≠ [] := by
            intro hn; rw [hn] at hl; cases hl
          refine ⟨r.dropLast, ?_⟩
          have hd := List.dropLast_append_getLast hne
          rw [List.getLast?_eq_getLast _ hne, Option.some.injEq] at hl
          rw [hl] at hd
          exact hd.symm
        rw [lastLabel_append_dot] at hlab
        simp [lastLabel] at hlab
      have es : s = ⟨wildCardMarker.data ++ r⟩ := String.ext hr
      have e2 : wildCardMarker = ⟨wildCardMarker.data⟩ := rfl
      have hd : domainUnderCheck s = ⟨r⟩ := by
        rw [domainUnderCheck_of_match s hm, es, e2, trimPrefix_append]
        exact trimSuffix_dot_of_last ⟨r⟩ hlast
      rw [hd]
      exact no_grammar_of_short_label ⟨r⟩ hlab
    · rw [domainUnderCheck_of_no_match s hm]
      exact no_grammar_of_short_label s h
  · set_option maxRecDepth 100000 in decide
  · set_option maxRecDepth 100000 in decide
  · set_option maxRecDepth 100000 in decide

theorem validateDomainNameFormat_short_last_label_witness :
    (lastLabel "example.c".data).length = 1 ∧
      ValidateDomainNameFormat "example.c"
        = .ok (400, some (dnsFormatMismatch "example.c")) :=
  ⟨by decide, (validateDomainNameFormat_short_last_label "example.c" (by decide)).1⟩

/-! ## Proxy URLs among HTTP URLs -/

/-- C22: a text accepted by `ValidateHTTPProxyFormat` is accepted by
`ValidateHTTPFormat`; the converse fails for every text that parses with the
scheme `https`, which the latter accepts and the former rejects. -/
theorem validateHTTPProxyFormat_subset (lib : Library) (s : String)
    (h : ValidateHTTPProxyFormat lib s = none) :
    ValidateHTTPFormat lib s = none ∧
      (∀ t u, lib.Parse t = .ok u → u.Scheme = "https" →
        ValidateHTTPFormat lib t = none ∧ ValidateHTTPProxyFormat lib t ≠ none) ∧
      ((∃ t u, lib.Parse t = .ok u ∧ u.Scheme = "https") →
        ∃ t, ValidateHTTPFormat lib t = none ∧ ValidateHTTPProxyFormat lib t ≠ none) := by
  have strict : ∀ t u, lib.Parse t = .ok u → u.Scheme = "https" →
      ValidateHTTPFormat lib t = none ∧ ValidateHTTPProxyFormat lib t ≠ none := by
    intro t u hp hs
    constructor
    · unfold ValidateHTTPFormat
      rw [hp]
      simp [hs]
    · unfold ValidateHTTPProxyFormat
      rw [hp]
      cases lib.IsURL t <;> simp [hs]
  refine ⟨?_, strict, ?_⟩
  · unfold ValidateHTTPProxyFormat at h
    unfold ValidateHTTPFormat
    cases hu : lib.IsURL s with
    | false => rw [hu] at h; simp at h
    | true =>
        rw [hu] at h
        cases hp : lib.Parse s with
        | error err => rw [hp] at h; simp at h
        | ok u =>
            rw [hp] at h
            by_cases h1 : u.Scheme = "https"
            · simp [h1] at h
            · by_cases h2 : u.Scheme = "http"
              · simp [h2]
              · simp [h1, h2] at h
  · rintro ⟨t, u, hp, hs⟩
    exact ⟨t, strict t u hp hs⟩

theorem validateHTTPProxyFormat_subset_witness :
    ValidateHTTPProxyFormat schemeLibrary "http://proxy:3128" = none ∧
      ValidateHTTPFormat schemeLibrary "http://proxy:3128" = none :=
  ⟨by decide,
    (validateHTTPProxyFormat_subset schemeLibrary "http://proxy:3128" (by decide)).1⟩

/-! ## The helper `AllStrings` -/

theorem allStrings_true_iff (vs : List String) (f : String → Except Panic Bool) :
    AllStrings vs f = .ok true ↔ ∀ v ∈ vs, f v = .ok true := by
  induction vs with
  | nil => simp [AllStrings]
  | cons v rest ih =>
      simp only [AllStrings, List.mem_cons, forall_eq_or_imp, ← ih]
      cases hf : f v with
      | error p => simp
      | ok b => cases b <;> simp

/-- The form of `AllStrings` on a concatenation: the second part is examined
only when the first part is all true. -/
theorem allStrings_append (a b : List String) (f : String → Except Panic Bool) :
    AllStrings (a ++ b) f
      = (match AllStrings a f with
        | .ok true => AllStrings b f
        | r => r) := by
  induction a with
  | nil => simp [AllStrings]
  | cons v rest ih =>
      simp only [List.cons_append, AllStrings]
      cases hf : f v with
      | error p => rfl
      | ok x =>
          cases x
          · rfl
          · simpa using ih

/-- C23: `AllStrings(vs, f)` is true exactly when `f` holds for every element
of `vs` (for a predicate `g` without panic its value is that of "all elements
satisfy `g`"); it is true for the empty sequence; and on `a ++ b` it is
`AllStrings(a, f) && AllStrings(b, f)`. -/
theorem allStrings_spec (vs a b : List String) (f : String → Except Panic Bool)
    (g : String → Bool) :
    (AllStrings vs f = .ok true ↔ ∀ v ∈ vs, f v = .ok true) ∧
      (AllStrings vs (fun v => .ok (g v)) = .ok true ↔ ∀ v ∈ vs, g v = true) ∧
      AllStrings vs (fun v => .ok (g v)) = .ok (vs.all g) ∧
      AllStrings [] f = .ok true ∧
      AllStrings (a ++ b) f
        = (match AllStrings a f with
          | .ok true => AllStrings b f
          | r => r) ∧
      AllStrings (a ++ b) (fun v => .ok (g v)) = .ok (a.all g && b.all g) ∧
      AllStrings a (fun v => .ok (g v)) = .ok (a.all g) ∧
      AllStrings b (fun v => .ok (g v)) = .ok (b.all g) := by
  refine ⟨allStrings_true_iff vs f, ?_, allStrings_pure vs g, rfl, allStrings_append a b f,
    ?_, allStrings_pure a g, allStrings_pure b g⟩
  · rw [allStrings_pure, Except.ok.injEq, List.all_eq_true]
  · rw [allStrings_pure, List.all_append]

end Validations
